import Mathlib

/-!
Shallow embedding of the npm-scripts-ui process-tree orchestrator
(`proc_manager`, source file `src/unnamed/part_000`) and of the
keymapping trie (`src/utils/keymapping.ts`), together with theorems
settling the specification claims about them.

Conventions used throughout:
* JavaScript mutable objects are modelled by values; object identity of
  `LogLine`s (used by the source through `Set` membership and the
  `$lastLineToTitle` record) is represented by structural equality.
  Line ids are assigned at creation and never mutated by the source, so
  the id-based comparisons of the merge scan behave identically.
* Machine numbers that the source uses as plain JS numbers are modelled
  as `Nat`/`Int`.
* External collaborators that are not part of this repository's `src/`
  (the ANSI stream decoder, the style-context helpers of `sty.js` and
  the `specialKeyNames` table of `notios-config`) are modelled from the
  spec's stated contracts; those definitions carry a
  `Modelled from the spec:` doc comment.
* Operations are modelled at single-node scope: the parent notify bubble
  and listener dispatch of `$notifyUpdate` (source lines 302, 346–348)
  are outside the state carried here; the per-node status, exit-code,
  serial-scheduling, merge and eviction steps are embedded in source
  order.
-/

namespace NpmScriptsUi

/-- `ProcStatus` from the source: `'waiting' | 'running' | 'killed' | 'finished'`. -/
inductive ProcStatus where
  | waiting
  | running
  | killed
  | finished
deriving DecidableEq, Repr, Inhabited

/-- `ProcNodeType` from the source: `'none' | 'serial' | 'parallel'`. -/
inductive ProcNodeType where
  | none
  | serial
  | parallel
deriving DecidableEq, Repr, Inhabited

/-- A JS `number | null | undefined` exit-code value. -/
inductive JSExit where
  | undef
  | null
  | num (n : Int)
deriving DecidableEq, Repr, Inhabited

/-- JS truthiness of an exit-code value: `null`, `undefined` and `0` are falsy. -/
def JSExit.isTruthy : JSExit → Bool
  | .num n => n != 0
  | _ => false

/-- A content token of a log line (`LogContent` in the source). -/
inductive LogContentItem where
  | print (byte : Nat)
  | style (bytes : List Nat)
deriving DecidableEq, Repr, Inhabited

/-- `LogLineMain` from the source.  The JS `Date` timestamp is modelled as
`Option Nat` (absent until the line is committed); `new Date(0)` is `some 0`. -/
structure LogLineMain where
  timestamp : Option Nat
  read : Bool
  id : Int
  content : List LogContentItem
deriving DecidableEq, Repr, Inhabited

/-- `LogLine` from the source: a titled line. -/
structure LogLine where
  title : String
  main : LogLineMain
deriving DecidableEq, Repr, Inhabited

/-- `LogAccumulatedInternal` from the source: committed-line counter, the line
array, the `$unreadLines` set and the `$lastLineToTitle` record (modelled as an
association list with JS `Record` update semantics). -/
structure LogAccumulated where
  lineCount : Nat
  lines : List LogLine
  unreadLines : List LogLine
  lastLineToTitle : List (String × LogLine)
deriving DecidableEq, Repr, Inhabited

/-- JS `record[k]` read: the first entry carrying the key. -/
def recordGet (m : List (String × LogLine)) (k : String) : Option LogLine :=
  (m.find? (fun p => p.1 = k)).map (·.2)

/-- JS `record[k] = v` write: replace the entry when the key is present,
otherwise append a fresh entry. -/
def recordSet (m : List (String × LogLine)) (k : String) (v : LogLine) :
    List (String × LogLine) :=
  if m.any (fun p => p.1 = k) then
    m.map (fun p => if p.1 = k then (k, v) else p)
  else m ++ [(k, v)]

/-- Modelled from the spec: the style collaborator's opaque cumulative style
state (`StyContext` of `sty.js`, absent from `src/`), carried as the style
byte sequences folded in so far. -/
abbrev StyContext : Type := List (List Nat)

/-- Modelled from the spec: `defaultStyContext()` of `sty.js`. -/
def defaultStyContext : StyContext := []

/-- An action produced by the stream decoder: `print(byte)`, `control(char)`
or a style change. -/
inductive AnsiAction where
  | print (byte : Nat)
  | controll (char : Char)
  | style (bytes : List Nat)
deriving DecidableEq, Repr, Inhabited

/-- Modelled from the spec: `applyActionToSty` of `sty.js` — fold a style
action into the cumulative style state (`applyStyle(state, action) -> state`, §6). -/
def applyActionToSty (ctx : StyContext) (a : AnsiAction) : StyContext :=
  match a with
  | .style bs => ctx ++ [bs]
  | _ => ctx

/-- Modelled from the spec: `restoreSty` of `sty.js` — a byte sequence that
resets and reapplies the cumulative style (`renderStyle(state) -> bytes`, §6). -/
def restoreSty (ctx : StyContext) : List Nat :=
  [27, 91, 48, 109] ++ ctx.foldl (· ++ ·) []

/-- `LogOwnInternal` from the source: carried style state and decoder state.
The decoder state is the pending (unfinished) escape-sequence bytes. -/
structure LogOwnState where
  currentSty : StyContext
  currentParser : List Nat
deriving DecidableEq, Inhabited

/-- Modelled from the spec: one step of the external stream decoder contract
(`decode(state, bytes) -> (newState, actions[])`, §6).  A byte arriving while
inside an escape sequence extends it until a final letter byte completes a
style action; otherwise `0x1b` opens an escape sequence, control bytes (< 32)
yield `control(char)` actions, and all other bytes are printable. -/
def decodeAnsiStep (parser : List Nat) (b : Nat) : List Nat × List AnsiAction :=
  if parser.isEmpty then
    if b = 27 then ([27], [])
    else if b < 32 then ([], [AnsiAction.controll (Char.ofNat b)])
    else ([], [AnsiAction.print b])
  else
    if (65 ≤ b && b ≤ 90) || (97 ≤ b && b ≤ 122) then ([], [AnsiAction.style (parser ++ [b])])
    else (parser ++ [b], [])

/-- Modelled from the spec: `decodeAnsiBytes` — thread the decoder state
through a whole chunk of bytes, collecting the actions in order. -/
def decodeAnsiBytes (parser : List Nat) (bytes : List Nat) : List Nat × List AnsiAction :=
  bytes.foldl
    (fun (st : List Nat × List AnsiAction) b =>
      let r := decodeAnsiStep st.1 b
      (r.1, st.2 ++ r.2))
    (parser, [])

/-- A child node as seen through its parent during the embedded operations:
the fields of `ProcNodeInternal` that `$notifyUpdate`, `$checkSerial`,
`killNode` and the exit callback read or write on a child. -/
structure SinkChild where
  name : String
  status : ProcStatus
  ignored : Bool
  exitCode : JSExit
  logOwn : LogOwnState
  logAccumulated : LogAccumulated
  logOmitted : Bool
deriving DecidableEq, Inhabited

/-- The per-node state of `ProcNodeInternal` relevant to the embedded
operations, with the node's direct children carried inline. -/
structure NodeState where
  ty : ProcNodeType
  hasProcOwn : Bool
  hasRaw : Bool
  status : ProcStatus
  exitCode : JSExit
  children : List SinkChild
  logAccumulated : LogAccumulated
  logOmitted : Bool
deriving DecidableEq, Inhabited

/-! ### Serial scheduling (`$checkSerial`, source lines 202–214) -/

/-- The left-to-right adjacent-pair scan of `$checkSerial`: whenever
`children[i].status === 'finished' && children[i + 1].status === 'waiting'`,
`$startRunning(children[i + 1])` runs; `$startRunning` is modelled by its
effect on the started child's own `status` field (it sets `'running'`).  The
scan continues over the mutated array, exactly as the source's index loop. -/
def serialScanC : List SinkChild → List SinkChild
  | [] => []
  | [a] => [a]
  | a :: b :: rest =>
    if a.status = ProcStatus.finished ∧ b.status = ProcStatus.waiting then
      a :: serialScanC ({ b with status := ProcStatus.running } :: rest)
    else
      a :: serialScanC (b :: rest)
  termination_by l => l.length
  decreasing_by
    all_goals simp

/-- `$checkSerial` (source lines 202–214): for a `running` `serial` node with
children, start the first child if it is `waiting`, otherwise run the
adjacent-pair scan.  Note the source reads `node.children` unfiltered here. -/
def checkSerialChildren (status : ProcStatus) (ty : ProcNodeType)
    (cs : List SinkChild) : List SinkChild :=
  if status = ProcStatus.running ∧ ty = ProcNodeType.serial ∧ cs.length > 0 then
    match cs with
    | [] => []
    | c :: rest =>
      if c.status = ProcStatus.waiting then { c with status := ProcStatus.running } :: rest
      else serialScanC (c :: rest)
  else cs

/-! ### Status and exit-code recomputation (`$notifyUpdate`, source lines 236–251) -/

/-- The status recomputation of `$notifyUpdate` (source lines 239–248),
translated including the `Math.max(...) === 0` encoding of the three
"every child has status s" tests (`List.max?` returns `none` on an empty
list, which — like JS `-Infinity` — fails the `= 0` comparison). -/
def recomputeStatus (hasProcOwn : Bool) (statuses : List ProcStatus) : ProcStatus :=
  let allKilled :=
    (statuses.map (fun s => if s = ProcStatus.killed then (0 : Nat) else 1)).max? = some 0
  let allFinished :=
    (statuses.map (fun s => if s = ProcStatus.finished then (0 : Nat) else 1)).max? = some 0
  let allWaiting :=
    (statuses.map (fun s => if s = ProcStatus.waiting then (0 : Nat) else 1)).max? = some 0
  if hasProcOwn ∧ allKilled then ProcStatus.killed
  else if allFinished then ProcStatus.finished
  else if allWaiting then ProcStatus.waiting
  else ProcStatus.running

/-- The exit-code recomputation of `$notifyUpdate` (source line 249):
`children.reduce((accum, n) => accum || n.exitCode, null)`, where JS `||`
keeps a truthy accumulator and otherwise takes the next child's exit code. -/
def recomputeExitCode (children : List SinkChild) : JSExit :=
  children.foldl (fun accum n => if accum.isTruthy then accum else n.exitCode) JSExit.null

/-! ### Hierarchical log merge (`$notifyUpdate`, source lines 253–299) -/

/-- The candidate titles tried by the collision loop of source lines 260–265:
the child's name, then `name(1)`, `name(2)`, … -/
def titleCand (name : String) : Nat → String
  | 0 => name
  | n + 1 => name ++ "(" ++ toString (n + 1) ++ ")"

/-- The `while (knownTitle[title])` loop of source lines 262–265, with fuel.
The source loop always terminates because the candidate titles are pairwise
distinct and `knownTitle` is finite; the fuel of `freshTitle` suffices for the
same reason, so the out-of-fuel fallback (a string strictly longer than every
known title, hence fresh) is unreachable. -/
def freshTitleGo (known : List String) (name : String) : Nat → Nat → String
  | 0, _ => known.foldl (· ++ ·) "" ++ name ++ "!"
  | fuel + 1, cnt =>
    if known.contains (titleCand name cnt) then freshTitleGo known name fuel (cnt + 1)
    else titleCand name cnt

/-- The disambiguated title chosen for a child (source lines 260–265). -/
def freshTitle (known : List String) (name : String) : String :=
  freshTitleGo known name (known.length + 1) 0

/-- `realLen` of source lines 268–273: the number of committed lines of a
child — the trailing line is excluded while it is still pending
(timestamp-less).  A JS `Date` object is always truthy, so the test is
`timestamp.isSome`. -/
def realLenOf (ls : List LogLine) : Nat :=
  if ls.isEmpty then 0
  else if ((ls.getLast?.map (fun l => l.main.timestamp.isSome)).getD false) then ls.length
  else ls.length - 1

/-- The backward scan of source lines 278–285: starting from `realLen`,
decrement `from` while the line before it is neither the synthetic marker
(`id = -1`) nor the line recorded as last merged (`id = tid`).  The source
never scans out of range (`from ≤ realLen ≤ lines.length`); the `none`
branch is unreachable. -/
def backScan (ls : List LogLine) (tid : Int) : Nat → Nat
  | 0 => 0
  | f + 1 =>
    match ls.get? f with
    | some l =>
      if l.main.id = -1 ∨ l.main.id = tid then f + 1 else backScan ls tid f
    | Option.none => f + 1

/-- The accumulator of the per-child merge loop of source lines 254–289. -/
structure MergeAcc where
  knownTitle : List String
  lineCount : Nat
  lastMap : List (String × LogLine)
  beingAdded : List LogLine
deriving DecidableEq, Inhabited

/-- One iteration of the `for (const child of children)` merge loop (source
lines 257–289), for one child given as its `name` and `logAccumulated`. -/
def mergeChildStep (acc : MergeAcc) (child : String × LogAccumulated) : MergeAcc :=
  let lineCount := acc.lineCount + child.2.lineCount
  let title := freshTitle acc.knownTitle child.1
  let knownTitle := acc.knownTitle ++ [title]
  let childLines := child.2.lines
  let realLen := realLenOf childLines
  if realLen > 0 then
    let lastLine := recordGet acc.lastMap title
    let fromIdx :=
      match lastLine with
      | Option.none => 0
      | Option.some ll => backScan childLines ll.main.id realLen
    let lastMap := recordSet acc.lastMap title (childLines.getD (realLen - 1) default)
    let slice :=
      ((childLines.take realLen).drop fromIdx).map (fun e => { title := title, main := e.main })
    { knownTitle := knownTitle, lineCount := lineCount, lastMap := lastMap,
      beingAdded := acc.beingAdded ++ slice }
  else
    { acc with knownTitle := knownTitle, lineCount := lineCount }

/-- The timestamp key used by the sort of source line 291
(`a.main.timestamp!.getTime()`); merged lines are committed, so the
`getD 0` default is never consulted. -/
def tsKey (l : LogLine) : Nat := l.main.timestamp.getD 0

/-- Stable insertion into a timestamp-sorted list: an element is placed
before the first strictly-later or equal-and-later-sorted element, which
reproduces the stability of JS `Array.prototype.sort`. -/
def orderedInsertTs (x : LogLine) : List LogLine → List LogLine
  | [] => [x]
  | y :: ys => if tsKey x ≤ tsKey y then x :: y :: ys else y :: orderedInsertTs x ys

/-- The stable sort by commit timestamp of source line 291. -/
def sortByTs : List LogLine → List LogLine
  | [] => []
  | x :: xs => orderedInsertTs x (sortByTs xs)

/-- The whole merge block of source lines 253–299 (for non-ignored children
given as `(name, logAccumulated)` pairs): recompute `lineCount`, collect each
child's newly committed lines, sort them by timestamp, append them to this
node's lines and (with the unread marker enabled) to its unread set. -/
def mergeNewChildLines (emk : Bool) (acc : LogAccumulated)
    (children : List (String × LogAccumulated)) : LogAccumulated :=
  let m := children.foldl mergeChildStep
    { knownTitle := [], lineCount := 0, lastMap := acc.lastLineToTitle, beingAdded := [] }
  let sorted := sortByTs m.beingAdded
  { lineCount := m.lineCount
    lines := acc.lines ++ sorted
    unreadLines := if emk then acc.unreadLines ++ sorted else acc.unreadLines
    lastLineToTitle := m.lastMap }

/-! ### History eviction (`$notifyUpdate`, source lines 304–344) -/

/-- `isColorSupported ? '\x1b[0m' : ''` as bytes. -/
def RESETbytes (colorSupported : Bool) : List Nat :=
  if colorSupported then [27, 91, 48, 109] else []

/-- `isColorSupported ? '\x1b[33m' : ''` as bytes. -/
def YELLOWbytes (colorSupported : Bool) : List Nat :=
  if colorSupported then [27, 91, 51, 51, 109] else []

/-- The bytes of a string of plain ASCII characters. -/
def asciiBytes (s : String) : List Nat := s.data.map Char.toNat

/-- The synthetic `[NOTIOS] HISTORY DROPPED` marker line spliced in by the
eviction step (source lines 322–340): fixed id `-1`, pre-marked read,
timestamp `new Date(0)`. -/
def markerLine (colorSupported : Bool) : LogLine :=
  { title := "[NOTIOS]"
    main :=
      { id := -1
        read := true
        timestamp := some 0
        content :=
          LogContentItem.style (RESETbytes colorSupported ++ YELLOWbytes colorSupported) ::
            (asciiBytes "[NOTIOS] HISTORY DROPPED").map LogContentItem.print ++
              [LogContentItem.style (RESETbytes colorSupported)] } }

/-- The history-eviction block of source lines 304–344: when the line count
exceeds `headSize + tailSize`, keep the first `headSize` lines, drop the
dropped middle from the unread set, splice in the synthetic marker line and
keep the last `tailSize` lines; `slice(-tailSize)` / `slice(0, -tailSize)`
are `drop`/`take` at `length - tailSize`. -/
def wipeHistory (emk : Bool) (colorSupported : Bool) (H C : Int)
    (acc : LogAccumulated) (omitted : Bool) : LogAccumulated × Bool :=
  let headSize := (max 0 H).toNat
  let tailSize := (max 1 (C + 1)).toNat
  if acc.lines.length > headSize + tailSize then
    let head := acc.lines.take headSize
    let tailAll := acc.lines.drop headSize
    let removed := tailAll.take (tailAll.length - tailSize)
    let unread :=
      if emk then acc.unreadLines.filter (fun l => !removed.contains l) else acc.unreadLines
    let tail := tailAll.drop (tailAll.length - tailSize)
    ({ acc with lines := head ++ markerLine colorSupported :: tail, unreadLines := unread }, true)
  else (acc, omitted)

/-- The non-ignored children of a node (source line 237). -/
def nonIgnored (cs : List SinkChild) : List SinkChild := cs.filter (fun c => !c.ignored)

/-- The `(name, logAccumulated)` view of children consumed by the merge. -/
def childrenMergeInput (cs : List SinkChild) : List (String × LogAccumulated) :=
  cs.map (fun c => (c.name, c.logAccumulated))

/-- One full `$notifyUpdate` pass at a node (source lines 236–349), at
single-node scope, in source order: status and exit-code recomputation over
the non-ignored children (only when there is at least one), `$checkSerial`
over the unfiltered children, the hierarchical merge of newly committed child
lines, and finally the history eviction.  The parent bubble (line 302) and
the listener dispatch (lines 346–348) act outside this node's state. -/
def notifyUpdateNode (emk : Bool) (colorSupported : Bool) (H C : Int)
    (node : NodeState) : NodeState :=
  let children := nonIgnored node.children
  let node1 :=
    if children.length > 0 then
      { node with
        status := recomputeStatus node.hasProcOwn (children.map (·.status))
        exitCode := recomputeExitCode children }
    else node
  let node2 := { node1 with children := checkSerialChildren node1.status node1.ty node1.children }
  let acc1 :=
    if children.length > 0 then
      mergeNewChildLines emk node2.logAccumulated (childrenMergeInput children)
    else node2.logAccumulated
  let wiped := wipeHistory emk colorSupported H C acc1 node2.logOmitted
  { node2 with logAccumulated := wiped.1, logOmitted := wiped.2 }

/-! ### Log appending (`$appendLogToNode`, source lines 355–441) -/

/-- Source lines 362–378: when the node's line array is empty, open an
initial pending line (id = current `lineCount`) and register it in the
unread set (when enabled) and the `$lastLineToTitle` record. -/
def ensureLine (emk : Bool) (acc : LogAccumulated) : LogAccumulated :=
  if acc.lines.isEmpty then
    let mainv : LogLineMain :=
      { timestamp := Option.none, read := false, id := Int.ofNat acc.lineCount, content := [] }
    let logLine : LogLine := { title := "", main := mainv }
    { acc with
      lines := [logLine]
      unreadLines := if emk then acc.unreadLines ++ [logLine] else acc.unreadLines
      lastLineToTitle := recordSet acc.lastLineToTitle "" logLine }
  else acc

/-- `checkTimestamp` of source lines 380–385, applied to the last line:
commit it (assign the current time, bump `lineCount`) unless already
committed.  The clock is threaded as a counter so later commits get later
timestamps. -/
def commitLast (acc : LogAccumulated) (now : Nat) : LogAccumulated × Nat :=
  match acc.lines.getLast? with
  | some l =>
    if l.main.timestamp.isNone then
      ({ acc with
          lines := acc.lines.dropLast ++
            [{ l with main := { l.main with timestamp := some now } }]
          lineCount := acc.lineCount + 1 }, now + 1)
    else (acc, now)
  | Option.none => (acc, now)

/-- Append one content token to the last line. -/
def pushContent (acc : LogAccumulated) (tok : LogContentItem) : LogAccumulated :=
  match acc.lines.getLast? with
  | some l =>
    { acc with
      lines := acc.lines.dropLast ++
        [{ l with main := { l.main with content := l.main.content ++ [tok] } }] }
  | Option.none => acc

/-- The `switch (action.actionType)` body of source lines 386–439, acting on
the style state, the log accumulator and the clock. -/
def applyLogAction (emk : Bool) (act : AnsiAction)
    (st : StyContext × LogAccumulated × Nat) : StyContext × LogAccumulated × Nat :=
  let sty := st.1
  let acc := ensureLine emk st.2.1
  let now := st.2.2
  match act with
  | .print b =>
    let c := commitLast acc now
    (sty, pushContent c.1 (LogContentItem.print b), c.2)
  | .controll ch =>
    if ch = '\t' then
      let c := commitLast acc now
      (sty, pushContent c.1 (LogContentItem.print 0x20), c.2)
    else if ch = '\n' then
      let c := commitLast acc now
      let mainv : LogLineMain :=
        { timestamp := Option.none, read := false, id := Int.ofNat c.1.lineCount,
          content := [LogContentItem.style (restoreSty sty)] }
      let logLine : LogLine := { title := "", main := mainv }
      (sty,
        { c.1 with
          lines := c.1.lines ++ [logLine]
          unreadLines := if emk then c.1.unreadLines ++ [logLine] else c.1.unreadLines
          lastLineToTitle := recordSet c.1.lastLineToTitle "" logLine }, c.2)
    else (sty, acc, now)
  | .style bs =>
    let sty2 := applyActionToSty sty (AnsiAction.style bs)
    (sty2, pushContent acc (LogContentItem.style (restoreSty sty2)), now)

/-- `$appendLogToNode` (source lines 355–441): decode the chunk with the
carried decoder state, then apply every produced action in order. -/
def appendLogToNode (emk : Bool) (now : Nat) (newLog : List Nat)
    (own : LogOwnState) (acc : LogAccumulated) : LogOwnState × LogAccumulated :=
  let d := decodeAnsiBytes own.currentParser newLog
  let r := d.2.foldl (fun st act => applyLogAction emk act st) (own.currentSty, acc, now)
  ({ currentSty := r.1, currentParser := d.1 }, r.2.1)

/-! ### Kill (`killNode`, source lines 600–613) and the exit callback
(source lines 535–549) -/

/-- Update the child at an index, if present (JS would throw on a missing
child; the operations below are only reached on started nodes, which own
their two sink children at indices 0 and 1). -/
def setChildAt (cs : List SinkChild) (i : Nat) (f : SinkChild → SinkChild) : List SinkChild :=
  match cs.get? i with
  | some c => cs.set i (f c)
  | Option.none => cs

/-- The bytes of `` `\n${RESET}${YELLOW}[NOTIOS] MANUALLY KILLED${RESET}\n` ``
appended by `killNode` (source line 611). -/
def killedBytes (colorSupported : Bool) : List Nat :=
  10 :: RESETbytes colorSupported ++ YELLOWbytes colorSupported ++
    asciiBytes "[NOTIOS] MANUALLY KILLED" ++ RESETbytes colorSupported ++ [10]

/-- `killNode` (source lines 600–613): silently return unless the node has
process-identity, a live process handle and status `'running'`; otherwise
send the signal (external), drop the handle, force the node and both sink
children to `'killed'`, append the manual-kill marker to the stdout sink and
run the full notify pass at the node. -/
def killNode (emk : Bool) (colorSupported : Bool) (H C : Int) (now : Nat) :
    Option NodeState → Option NodeState
  | Option.none => Option.none
  | Option.some inode =>
    if inode.hasProcOwn = false then some inode
    else if inode.hasRaw = false then some inode
    else if inode.status ≠ ProcStatus.running then some inode
    else
      let n1 := { inode with hasRaw := false, status := ProcStatus.killed }
      let n2 := { n1 with
        children := setChildAt n1.children 0 (fun c => { c with status := ProcStatus.killed }) }
      let n3 := { n2 with
        children := setChildAt n2.children 1 (fun c => { c with status := ProcStatus.killed }) }
      let n4 := { n3 with
        children := setChildAt n3.children 0 (fun c =>
          let r := appendLogToNode emk now (killedBytes colorSupported) c.logOwn c.logAccumulated
          { c with logOwn := r.1, logAccumulated := r.2 }) }
      some (notifyUpdateNode emk colorSupported H C n4)

/-- The status promotion of the process-exit callback (source lines 536–541):
a sink moves `'running' → 'finished'`, any other status is left alone. -/
def exitPromote (s : ProcStatus) : ProcStatus :=
  if s = ProcStatus.running then ProcStatus.finished else s

/-- The first half of the process-exit callback (source lines 536–543):
promote both sinks and record the exit code on both. -/
def exitSinks (code : JSExit) (n : NodeState) : NodeState :=
  let n1 := { n with
    children := setChildAt n.children 0 (fun c => { c with status := exitPromote c.status }) }
  let n2 := { n1 with
    children := setChildAt n1.children 1 (fun c => { c with status := exitPromote c.status }) }
  let n3 := { n2 with
    children := setChildAt n2.children 0 (fun c => { c with exitCode := code }) }
  { n3 with
    children := setChildAt n3.children 1 (fun c => { c with exitCode := code }) }

/-- The history eviction a sink's own `$notifyUpdate` runs on that sink. -/
def wipeChild (emk : Bool) (colorSupported : Bool) (H C : Int) (c : SinkChild) : SinkChild :=
  let w := wipeHistory emk colorSupported H C c.logAccumulated c.logOmitted
  { c with logAccumulated := w.1, logOmitted := w.2 }

/-- The process-exit callback of `$startRunning` (source lines 535–549), at
single-node scope for the owning node: promote both sinks, record the exit
code on both, then each sink's `$notifyUpdate` — which at a childless sink
reduces to the parent bubble (a full pass at this node) followed by the
sink's own history eviction. -/
def exitCallback (emk : Bool) (colorSupported : Bool) (H C : Int) (code : JSExit)
    (n : NodeState) : NodeState :=
  let n5 := notifyUpdateNode emk colorSupported H C (exitSinks code n)
  let n6 := { n5 with
    children := setChildAt n5.children 0 (wipeChild emk colorSupported H C) }
  let n7 := notifyUpdateNode emk colorSupported H C n6
  { n7 with
    children := setChildAt n7.children 1 (wipeChild emk colorSupported H C) }

/-- The stdout sink as the effective branch of `killNode` rewrites it: status
forced to `killed`, the manual-kill chunk appended. -/
def killOutSink (emk : Bool) (colorSupported : Bool) (now : Nat) (s : SinkChild) : SinkChild :=
  let r := appendLogToNode emk now (killedBytes colorSupported) s.logOwn s.logAccumulated
  { s with status := ProcStatus.killed, logOwn := r.1, logAccumulated := r.2 }

/-- The printable content of a line: its print bytes, styles dropped. -/
def printableContent : List LogContentItem → List Nat
  | [] => []
  | LogContentItem.print b :: r => b :: printableContent r
  | LogContentItem.style _ :: r => printableContent r

/-! ### Read marking (`markNodeAsRead`, source lines 623–638) -/

/-- A process-tree node as `markNodeAsRead` sees it: lines, the unread set
and the child subtrees. -/
inductive PTree where
  | mk (lines : List LogLine) (unread : List LogLine) (children : List PTree)

/-- The recursive `internal` helper of source lines 627–635: mark every
unread line read, clear the unread set, recurse into all children. -/
def PTree.markReadRec : PTree → PTree
  | .mk lines unread children =>
    .mk
      (lines.map (fun l =>
        if unread.contains l then { l with main := { l.main with read := true } } else l))
      []
      (children.attach.map (fun c => PTree.markReadRec c.1))
  termination_by t => sizeOf t
  decreasing_by
    have h := List.sizeOf_lt_of_mem c.2
    simp only [PTree.mk.sizeOf_spec]
    omega

/-- `markNodeAsRead` (source lines 623–638).  The returned flag records
whether the node's `$notifyUpdate` ran (the last statement of the body);
when `enableUnreadMarker` is false the function returns before touching
anything and before the null check. -/
def markNodeAsRead (emk : Bool) (node : Option PTree) : Option PTree × Bool :=
  if !emk then (node, false)
  else
    match node with
    | Option.none => (Option.none, false)
    | Option.some t => (Option.some t.markReadRec, true)

/-! ### Keymapping trie (`src/utils/keymapping.ts`) -/

/-- `NotiosConfigKeymapping`: a single key descriptor — a character key with
ctrl/meta/shift flags or a named special key with ctrl/shift flags. -/
inductive NotiosConfigKeymapping where
  | char (c : String) (ctrl : Bool) (meta : Bool) (shift : Bool)
  | special (s : String) (ctrl : Bool) (shift : Bool)
deriving DecidableEq, Repr, Inhabited

/-- `NotiosConfigKeymappingRoot`: either one key or an explicit sequence. -/
inductive NotiosConfigKeymappingRoot where
  | single (k : NotiosConfigKeymapping)
  | seq (l : List NotiosConfigKeymapping)
deriving DecidableEq, Repr, Inhabited

/-- `keymappingToString` (source lines 16–25): the normalized trie key token. -/
def keymappingToString : NotiosConfigKeymapping → String
  | .char c ctrl m shift =>
    c ++ (if ctrl then "c" else "-") ++ (if m then "m" else "-") ++ (if shift then "s" else "-")
  | .special s ctrl shift =>
    s ++ ";" ++ (if ctrl then "c" else "-") ++ (if shift then "s" else "-")

/-- `keymappingToRepr` (source lines 27–39): the human-readable key text used
in error messages. -/
def keymappingToRepr : NotiosConfigKeymapping → String
  | .char c ctrl m shift =>
    (if ctrl then "C-" else "") ++ (if m then "M-" else "") ++ (if shift then "S-" else "") ++
      (if c = " " then "<SPACE>" else c)
  | .special s ctrl shift =>
    (if ctrl then "C-" else "") ++ (if shift then "S-" else "") ++ s

/-- `toSeq` (source lines 41–44). -/
def toSeq : NotiosConfigKeymappingRoot → List NotiosConfigKeymapping
  | .seq l => l
  | .single k => [k]

/-- `KeymappingNode`: a trie node — children keyed by normalized token (a JS
`Map`, modelled with insertion-order association lists) plus an optionally
bound action. -/
inductive KeymappingNode where
  | node (children : List (String × KeymappingNode)) (action : Option String)

/-- The children map of a trie node. -/
def KeymappingNode.children : KeymappingNode → List (String × KeymappingNode)
  | .node c _ => c

/-- The bound action of a trie node. -/
def KeymappingNode.action : KeymappingNode → Option String
  | .node _ a => a

/-- JS `Map.prototype.get`. -/
def trieGet (m : List (String × KeymappingNode)) (k : String) : Option KeymappingNode :=
  (m.find? (fun p => p.1 == k)).map (·.2)

/-- JS `Map.prototype.set`: update in place when the key exists (insertion
order kept), otherwise append. -/
def trieSet (m : List (String × KeymappingNode)) (k : String) (v : KeymappingNode) :
    List (String × KeymappingNode) :=
  if m.any (fun p => p.1 == k) then m.map (fun p => if p.1 == k then (k, v) else p)
  else m ++ [(k, v)]

/-- The conflict error of source lines 79–83. -/
def conflictMsg (action : String) (seq : List NotiosConfigKeymapping) (other : String) : String :=
  "Keymap for action \"" ++ action ++ "\" [" ++
    String.intercalate " " (seq.map keymappingToRepr) ++
    "] including keymap for action \"" ++ other ++ "\"."

/-- The zero-length-sequence error of source line 65. -/
def zeroLenMsg (action : String) : String :=
  "Keymap for action \"" ++ action ++ "\" is zero-length sequential, which is not allowed."

/-- The insertion walk of source lines 67–86: descend key by key, creating
nodes as needed; after every descent, an already-bound action on the reached
node is a fatal conflict; the end of the sequence binds the action. -/
def insertSeq (action : String) (seq : List NotiosConfigKeymapping) (cur : KeymappingNode) :
    List NotiosConfigKeymapping → Except String KeymappingNode
  | [] => .ok (.node cur.children (some action))
  | one :: rest =>
    let key := keymappingToString one
    let child := (trieGet cur.children key).getD (.node [] Option.none)
    match child.action with
    | some other => .error (conflictMsg action seq other)
    | Option.none =>
      (insertSeq action seq child rest).map
        (fun c2 => .node (trieSet cur.children key c2) cur.action)

/-- One iteration of the `for (const [action, seq] of sortedSeqEntries)` loop
(source lines 63–87). -/
def insertPair (trie : KeymappingNode) (p : String × List NotiosConfigKeymapping) :
    Except String KeymappingNode :=
  if p.2.isEmpty then .error (zeroLenMsg p.1) else insertSeq p.1 p.2 trie p.2

/-- Stable insertion for the sort by ascending sequence length. -/
def orderedInsertByLen (x : String × List NotiosConfigKeymapping) :
    List (String × List NotiosConfigKeymapping) → List (String × List NotiosConfigKeymapping)
  | [] => [x]
  | y :: ys => if x.2.length ≤ y.2.length then x :: y :: ys else y :: orderedInsertByLen x ys

/-- The stable JS sort of source lines 58–60 (comparator
`seqA.length - seqB.length`): entries ordered by ascending sequence length,
ties keeping their original order. -/
def sortPairsByLen : List (String × List NotiosConfigKeymapping) →
    List (String × List NotiosConfigKeymapping)
  | [] => []
  | x :: xs => orderedInsertByLen x (sortPairsByLen xs)

/-- `constructKeymapping` (source lines 46–89): flatten every action's
keymapping roots to `(action, sequence)` pairs, sort by ascending sequence
length, and insert each pair in order, failing on a zero-length sequence or
a conflicting path. -/
def constructKeymapping (actionKeymappings : List (String × List NotiosConfigKeymappingRoot)) :
    Except String KeymappingNode :=
  let pairs := (actionKeymappings.map (fun e => e.2.map (fun r => (e.1, toSeq r)))).flatten
  (sortPairsByLen pairs).foldlM insertPair (.node [] Option.none)

/-- The trie shape produced by inserting a single fresh sequence: one chain of
nodes with the action bound at the end. -/
def mkPath : List NotiosConfigKeymapping → String → KeymappingNode
  | [], a => .node [] (some a)
  | k :: r, a => .node [(keymappingToString k, mkPath r a)] Option.none

/-- The structured key event delivered by the terminal input layer (ink's
`Key`).  `return` is a Lean keyword, so that field is `returnKey`. -/
structure Key where
  ctrl : Bool
  meta : Bool
  shift : Bool
  upArrow : Bool
  downArrow : Bool
  leftArrow : Bool
  rightArrow : Bool
  pageDown : Bool
  pageUp : Bool
  tab : Bool
  backspace : Bool
  delete : Bool
  returnKey : Bool
deriving DecidableEq, Repr, Inhabited

/-- Modelled from the spec: `specialKeyNames` of `notios-config` (absent from
`src/`) — the named special keys recognized on a structured key event:
arrows, page up/down, tab, delete, backspace, return (§4.4). -/
def specialKeyNames : List String :=
  ["upArrow", "downArrow", "leftArrow", "rightArrow", "pageDown", "pageUp",
    "tab", "backspace", "delete", "return"]

/-- `key[specialKeyName]`: the boolean field of the structured event named by
a special key name. -/
def keyFlag (k : Key) : String → Bool
  | "upArrow" => k.upArrow
  | "downArrow" => k.downArrow
  | "leftArrow" => k.leftArrow
  | "rightArrow" => k.rightArrow
  | "pageDown" => k.pageDown
  | "pageUp" => k.pageUp
  | "tab" => k.tab
  | "backspace" => k.backspace
  | "delete" => k.delete
  | "return" => k.returnKey
  | _ => false

/-- JS `String.prototype.toLowerCase` on the code points of the input (the
inputs normalized here are ASCII key texts). -/
def jsToLower (s : String) : String := ⟨s.data.map Char.toLower⟩

/-- JS `String.prototype.startsWith`. -/
def jsStartsWith (s p : String) : Bool := p.data.isPrefixOf s.data

/-- JS `String.prototype.endsWith`. -/
def jsEndsWith (s p : String) : Bool := p.data.isSuffixOf s.data

/-- Zero or more repetitions of the three-character group `ESC [ c`. -/
def wheelRep (c : Char) : List Char → Bool
  | [] => true
  | a :: b :: d :: rest => a = '\x1b' && b = '[' && d = c && wheelRep c rest
  | _ => false

/-- The wheel regex of source lines 110 and 118: `^\[c(?:\x1b\[c)+$`. -/
def wheelTest (c : Char) (input : String) : Bool :=
  match input.data with
  | b :: c2 :: rest => b = '[' && c2 = c && !rest.isEmpty && wheelRep c rest
  | _ => false

/-- The structured-event classification of source lines 232–262: the first
set special-key flag wins (tab keeps only shift; delete/backspace/return
take no modifiers; the rest keep ctrl and shift); with no special flag the
event is a character key from the lower-cased input text. -/
def specialOrChar (input : String) (key : Key) : String :=
  match specialKeyNames.find? (fun n => keyFlag key n) with
  | some n =>
    if n = "tab" then keymappingToString (.special n false key.shift)
    else if n = "delete" ∨ n = "backspace" ∨ n = "return" then
      keymappingToString (.special n false false)
    else keymappingToString (.special n key.ctrl key.shift)
  | Option.none =>
    keymappingToString (.char (jsToLower input) key.ctrl key.meta key.shift)

/-- The key-event normalization of `matchKeymapping` (source lines 102–263):
raw escape-text patterns for wheel bursts, home/end, modified page up/down
and modified navigation keys are recognized first, then the structured
classification applies. -/
def normalizeKeyToken (input : String) (key : Key) : String :=
  let sub2ctrl := jsStartsWith input "[1;5" || jsStartsWith input "[1;6"
  let sub2shift := jsStartsWith input "[1;2" || jsStartsWith input "[1;6"
  if wheelTest 'B' input then keymappingToString (.special "upWheel" false false)
  else if wheelTest 'A' input then keymappingToString (.special "downWheel" false false)
  else if input = "[1~" then keymappingToString (.special "home" sub2ctrl sub2shift)
  else if input = "[4~" then keymappingToString (.special "end" sub2ctrl sub2shift)
  else if input = "[5;2~" then keymappingToString (.special "pageUp" sub2ctrl true)
  else if input = "[6;2~" then keymappingToString (.special "pageDown" sub2ctrl true)
  else if input = "[5;6~" then keymappingToString (.special "pageUp" true true)
  else if input = "[6;6~" then keymappingToString (.special "pageDown" true true)
  else if sub2ctrl || sub2shift then
    if jsEndsWith input "H" then keymappingToString (.special "home" sub2ctrl sub2shift)
    else if jsEndsWith input "F" then keymappingToString (.special "end" sub2ctrl sub2shift)
    else if jsEndsWith input "D" then
      keymappingToString (.special "leftArrow" sub2ctrl sub2shift)
    else if jsEndsWith input "B" then
      keymappingToString (.special "downArrow" sub2ctrl sub2shift)
    else if jsEndsWith input "C" then
      keymappingToString (.special "rightArrow" sub2ctrl sub2shift)
    else if jsEndsWith input "A" then keymappingToString (.special "upArrow" sub2ctrl sub2shift)
    else specialOrChar input key
  else specialOrChar input key

/-- `matchKeymapping` (source lines 91–275): normalize the event to a token
and attempt one descent from the given position; a missing child yields
`(undefined, undefined)`, a terminal child yields its action with no next
position, a non-terminal child becomes the next position. -/
def matchKeymapping (trie : KeymappingNode) (input : String) (key : Key) :
    Option KeymappingNode × Option String :=
  let k := normalizeKeyToken input key
  match trieGet trie.children k with
  | Option.none => (Option.none, Option.none)
  | some next =>
    match next.action with
    | some a => (Option.none, some a)
    | Option.none => (some next, Option.none)

/-- One keystroke of the stateful matcher in `useAction`
(`src/hooks/use_action.ts` lines 34–47): the new position is the returned
next node, or the trie root when none; the matched action, if any, fires. -/
def useActionStep (root cur : KeymappingNode) (input : String) (key : Key) :
    KeymappingNode × Option String :=
  let r := matchKeymapping cur input key
  (r.1.getD root, r.2)

/-- The plain (no modifiers, no special flags) key event. -/
def plainKey : Key :=
  { ctrl := false, meta := false, shift := false, upArrow := false, downArrow := false,
    leftArrow := false, rightArrow := false, pageDown := false, pageUp := false,
    tab := false, backspace := false, delete := false, returnKey := false }

/-- The `g` character key descriptor. -/
def gKey : NotiosConfigKeymapping := .char "g" false false false

/-- The configuration binding `["g","g"]` to action `"top"`. -/
def topConfig : List (String × List NotiosConfigKeymappingRoot) :=
  [("top", [NotiosConfigKeymappingRoot.seq [gKey, gKey]])]

/-- The intermediate trie node reached after one `g` of `topConfig`. -/
def gMid : KeymappingNode :=
  .node [("g---", .node [] (some "top"))] Option.none

/-- The trie built from `topConfig`. -/
def gTrie : KeymappingNode :=
  .node [("g---", gMid)] Option.none

/-! ### Specification-side definitions used for comparison -/

/-- The §4.1 status precedence rule exactly as the spec states it, used to
compare the embedded recomputation against the spec's words. -/
def specStatusRule (hasProcOwn : Bool) (statuses : List ProcStatus) : ProcStatus :=
  if hasProcOwn ∧ statuses.all (· = ProcStatus.killed) then ProcStatus.killed
  else if statuses.all (· = ProcStatus.finished) then ProcStatus.finished
  else if statuses.all (· = ProcStatus.waiting) then ProcStatus.waiting
  else ProcStatus.running

/-- The exit-code rule exactly as claim C2 states it: the first non-null and
non-undefined exit code among the children, scanning left-to-right. -/
def specFirstNonNullish (codes : List JSExit) : JSExit :=
  match codes.find? (fun c => c ≠ JSExit.null ∧ c ≠ JSExit.undef) with
  | some c => c
  | Option.none => JSExit.null

/-- The amended exit-code rule: the first truthy (non-null, non-undefined,
non-zero) child exit code left-to-right; when no child exit code is truthy,
the last child's exit code. -/
def specFirstTruthyElseLast (codes : List JSExit) : JSExit :=
  match codes.find? (fun c => c.isTruthy) with
  | some c => c
  | Option.none => codes.getLast?.getD JSExit.null

/-! ### Proof-side views of the merge state -/

/-- The key is present in the record and every entry carrying it holds the
given value — the state of `$lastLineToTitle` at a title after a merge pass
recorded that title's last merged line. -/
def keyAll (m : List (String × LogLine)) (k : String) (v : LogLine) : Prop :=
  (∃ p ∈ m, p.1 = k) ∧ ∀ p ∈ m, p.1 = k → p.2 = v

/-- The fields of a child that the merge pass and the ignored-filter read
(everything except the mutable status). -/
def coreProj (c : SinkChild) : String × Bool × LogAccumulated :=
  (c.name, c.ignored, c.logAccumulated)

/-- The `$lastLineToTitle` record is ready for a merge pass over these
children that will find nothing new: walking the children in order (tracking
the known titles), every child with committed lines has its last committed
line recorded at its disambiguated title. -/
def pass2Ready (kt : List String) (m : List (String × LogLine)) :
    List (String × LogAccumulated) → Prop
  | [] => True
  | c :: cs =>
    (realLenOf c.2.lines > 0 →
      keyAll m (freshTitle kt c.1) (c.2.lines.getD (realLenOf c.2.lines - 1) default)) ∧
    pass2Ready (kt ++ [freshTitle kt c.1]) m cs

/-- A freshly opened pending line, as `$appendLogToNode` pushes after a
newline: no timestamp yet, unread, with the given id and content. -/
def pendingLine (i : Int) (c : List LogContentItem) : LogLine :=
  { title := "", main := { timestamp := Option.none, read := false, id := i, content := c } }

/-- Commit a line: assign its timestamp (`checkTimestamp`'s effect). -/
def commitLine (l : LogLine) (now : Nat) : LogLine :=
  { l with main := { l.main with timestamp := some now } }

/-- Append content tokens at the end of a line. -/
def appendToks (l : LogLine) (toks : List LogContentItem) : LogLine :=
  { l with main := { l.main with content := l.main.content ++ toks } }

/-! ### Concrete fixtures used to instantiate the theorems -/

/-- A child fixture with empty logs. -/
def mkChild (name : String) (st : ProcStatus) (ig : Bool) (ec : JSExit) : SinkChild :=
  { name := name, status := st, ignored := ig, exitCode := ec,
    logOwn := { currentSty := [], currentParser := [] },
    logAccumulated := { lineCount := 0, lines := [], unreadLines := [], lastLineToTitle := [] },
    logOmitted := false }

/-- A node fixture with empty logs. -/
def mkNode (ty : ProcNodeType) (hpo hraw : Bool) (st : ProcStatus)
    (cs : List SinkChild) : NodeState :=
  { ty := ty, hasProcOwn := hpo, hasRaw := hraw, status := st, exitCode := JSExit.null,
    children := cs,
    logAccumulated := { lineCount := 0, lines := [], unreadLines := [], lastLineToTitle := [] },
    logOmitted := false }

/-- A composite node whose two children finished with exit codes `0` and `1`:
the input on which the claimed exit-code rule and the source disagree. -/
def exitDemoNode : NodeState :=
  mkNode ProcNodeType.parallel true true ProcStatus.running
    [mkChild "a" ProcStatus.finished false (JSExit.num 0),
      mkChild "b" ProcStatus.finished false (JSExit.num 1)]

/-- A started leaf fixture: process-identity, live handle, running, with the
two running sinks. -/
def runningLeaf : NodeState :=
  mkNode ProcNodeType.none true true ProcStatus.running
    [mkChild "<out>" ProcStatus.running false JSExit.undef,
      mkChild "<err>" ProcStatus.running false JSExit.undef]

/-- A committed line fixture. -/
def demoLine (i : Int) (t : Nat) : LogLine :=
  { title := "", main := { timestamp := some t, read := true, id := i, content := [] } }

/-- A two-line accumulated log fixture. -/
def wipeDemoAcc : LogAccumulated :=
  { lineCount := 2, lines := [demoLine 0 0, demoLine 1 1],
    unreadLines := [], lastLineToTitle := [] }

/-- A node fixture whose own history is long enough to trigger eviction. -/
def wipeDemoNode : NodeState :=
  { mkNode ProcNodeType.none false false ProcStatus.running [] with
    logAccumulated := wipeDemoAcc }

/-- A leaf fixture as `killNode` leaves it: killed, handle dropped, both
sinks killed. -/
def killedLeaf : NodeState :=
  mkNode ProcNodeType.none true false ProcStatus.killed
    [mkChild "<out>" ProcStatus.killed false JSExit.undef,
      mkChild "<err>" ProcStatus.killed false JSExit.undef]

/-! ## Theorems -/

/-! ### Helper lemmas -/

theorem max?_eq_zero_iff : ∀ l : List Nat, l.max? = some 0 ↔ l ≠ [] ∧ ∀ x ∈ l, x = 0
  | [] => by simp [List.max?]
  | a :: t => by
    have ih := max?_eq_zero_iff t
    rw [List.max?_cons]
    cases ht : t.max? with
    | none =>
      have ht2 : t = [] := by
        cases t with
        | nil => rfl
        | cons b u => rw [List.max?_cons] at ht; exact absurd ht (by simp)
      subst ht2
      simp
    | some m =>
      rw [ht] at ih
      simp only [Option.elim_some, Option.some.injEq]
      constructor
      · intro hm
        have ha : a = 0 := (Nat.max_eq_zero_iff.mp hm).1
        have hm0 : m = 0 := (Nat.max_eq_zero_iff.mp hm).2
        have hT := ih.mp (by rw [hm0])
        refine ⟨by simp, ?_⟩
        intro x hx
        rcases List.mem_cons.mp hx with h | h
        · exact h ▸ ha
        · exact hT.2 x h
      · rintro ⟨-, hall⟩
        have ha : a = 0 := hall a (by simp)
        have htnil : t ≠ [] := by
          intro hc
          subst hc
          rw [List.max?] at ht
          cases ht
        have hms : (some m : Option Nat) = some 0 :=
          ih.mpr ⟨htnil, fun x hx => hall x (List.mem_cons_of_mem _ hx)⟩
        have : m = 0 := by simpa using hms
        simp [ha, this]

theorem all_status_max_iff (statuses : List ProcStatus) (p : ProcStatus)
    (h : statuses ≠ []) :
    ((statuses.map (fun s => if s = p then (0 : Nat) else 1)).max? = some 0) ↔
      statuses.all (· = p) = true := by
  rw [max?_eq_zero_iff]
  constructor
  · rintro ⟨-, hz⟩
    simp only [List.all_eq_true, decide_eq_true_eq]
    intro s hs
    have := hz _ (List.mem_map_of_mem _ hs)
    by_cases hsp : s = p
    · exact hsp
    · simp [hsp] at this
  · intro hall
    refine ⟨fun hc => h (by simpa using hc), ?_⟩
    intro x hx
    rcases List.mem_map.mp hx with ⟨s, hs, rfl⟩
    have hsp : s = p := by simpa using List.all_eq_true.mp hall s hs
    simp [hsp]

theorem recomputeStatus_eq_spec (hp : Bool) (statuses : List ProcStatus)
    (h : statuses ≠ []) :
    recomputeStatus hp statuses = specStatusRule hp statuses := by
  unfold recomputeStatus specStatusRule
  simp only [all_status_max_iff statuses ProcStatus.killed h,
    all_status_max_iff statuses ProcStatus.finished h,
    all_status_max_iff statuses ProcStatus.waiting h]

theorem notifyUpdateNode_status (emk cs : Bool) (H C : Int) (n : NodeState) :
    (notifyUpdateNode emk cs H C n).status =
      if nonIgnored n.children ≠ [] then
        recomputeStatus n.hasProcOwn ((nonIgnored n.children).map (·.status))
      else n.status := by
  unfold notifyUpdateNode
  by_cases h : nonIgnored n.children = [] <;>
    simp [h, List.length_pos, checkSerialChildren]

theorem notifyUpdateNode_exitCode (emk cs : Bool) (H C : Int) (n : NodeState) :
    (notifyUpdateNode emk cs H C n).exitCode =
      if nonIgnored n.children ≠ [] then recomputeExitCode (nonIgnored n.children)
      else n.exitCode := by
  unfold notifyUpdateNode
  by_cases h : nonIgnored n.children = [] <;>
    simp [h, List.length_pos, checkSerialChildren]

/-! ### C1: status recomputation follows the §4.1 precedence rule -/

/-- C1.  On a notify pass, a node with at least one non-ignored child gets
the status given by the precedence rule — `killed` when it owns a
process-identity and every non-ignored child is killed, else `finished` when
all are finished, else `waiting` when all are waiting, else `running` — and a
node with no non-ignored children keeps both its status and its exit code. -/
theorem claim_C1_status_precedence (emk cs : Bool) (H C : Int) (n : NodeState) :
    (nonIgnored n.children ≠ [] →
      (notifyUpdateNode emk cs H C n).status =
        specStatusRule n.hasProcOwn ((nonIgnored n.children).map (·.status))) ∧
    (nonIgnored n.children = [] →
      (notifyUpdateNode emk cs H C n).status = n.status ∧
        (notifyUpdateNode emk cs H C n).exitCode = n.exitCode) := by
  constructor
  · intro h
    rw [notifyUpdateNode_status, if_pos h]
    exact recomputeStatus_eq_spec _ _ (by simpa using h)
  · intro h
    rw [notifyUpdateNode_status, notifyUpdateNode_exitCode]
    simp [h]

theorem claim_C1_status_precedence_witness :
    (nonIgnored runningLeaf.children ≠ []) ∧
      (notifyUpdateNode false false 0 0 runningLeaf).status =
        specStatusRule runningLeaf.hasProcOwn
          ((nonIgnored runningLeaf.children).map (·.status)) :=
  ⟨by decide, (claim_C1_status_precedence false false 0 0 runningLeaf).1 (by decide)⟩

/-! ### C2: exit-code selection -/

theorem foldl_exit_truthy (csl : List SinkChild) (a : JSExit) (ha : a.isTruthy = true) :
    csl.foldl (fun accum n => if accum.isTruthy then accum else n.exitCode) a = a := by
  induction csl with
  | nil => rfl
  | cons c t ih => simpa [List.foldl_cons, ha] using ih

theorem foldl_exit_spec (csl : List SinkChild) (a : JSExit) (ha : a.isTruthy = false) :
    csl.foldl (fun accum n => if accum.isTruthy then accum else n.exitCode) a =
      (match (csl.map (·.exitCode)).find? JSExit.isTruthy with
        | some c => c
        | Option.none => (csl.map (·.exitCode)).getLast?.getD a) := by
  induction csl generalizing a with
  | nil => simp
  | cons c t ih =>
    rw [List.foldl_cons, if_neg (by simp [ha]), List.map_cons, List.find?_cons]
    cases h1 : JSExit.isTruthy c.exitCode with
    | true => simpa using foldl_exit_truthy t c.exitCode h1
    | false =>
      rw [ih c.exitCode h1]
      cases h2 : (t.map (·.exitCode)).find? JSExit.isTruthy with
      | some d => simp
      | none =>
        cases ht : t.map (·.exitCode) with
        | nil => simp
        | cons e u =>
          rw [List.getLast?_cons_cons]
          cases hgu : (e :: u).getLast? with
          | none => simp [List.getLast?_eq_none_iff] at hgu
          | some z => simp

/-- C2 counterexample: for a node whose two non-ignored children carry exit
codes `0` and `1`, the notify pass records exit code `1`, not the first
non-null/non-undefined child exit code `0` that the claim requires. -/
theorem claim_C2_counterexample :
    (notifyUpdateNode false false 0 0 exitDemoNode).exitCode ≠
      specFirstNonNullish ((nonIgnored exitDemoNode.children).map (·.exitCode)) := by
  decide

/-- C2, amended.  On a notify pass, a node with at least one non-ignored
child gets as exit code the first truthy (non-null, non-undefined, non-zero)
exit code among those children, scanning left-to-right; when no child exit
code is truthy it gets the last child's exit code.  In particular a leading
child exit code of `0` is skipped in favour of a later non-zero one. -/
theorem claim_C2_exit_code_amended (emk cs : Bool) (H C : Int) (n : NodeState)
    (h : nonIgnored n.children ≠ []) :
    (notifyUpdateNode emk cs H C n).exitCode =
      specFirstTruthyElseLast ((nonIgnored n.children).map (·.exitCode)) := by
  rw [notifyUpdateNode_exitCode, if_pos h]
  unfold recomputeExitCode specFirstTruthyElseLast
  exact foldl_exit_spec (nonIgnored n.children) JSExit.null rfl

theorem claim_C2_exit_code_amended_witness :
    (nonIgnored exitDemoNode.children ≠ []) ∧
      (notifyUpdateNode false false 0 0 exitDemoNode).exitCode =
        specFirstTruthyElseLast ((nonIgnored exitDemoNode.children).map (·.exitCode)) :=
  ⟨by decide, claim_C2_exit_code_amended false false 0 0 exitDemoNode (by decide)⟩

/-! ### C3: serial scheduling -/

theorem serialScanC_head : ∀ l : List SinkChild, (serialScanC l)[0]? = l[0]?
  | [] => by simp [serialScanC]
  | [a] => by simp [serialScanC]
  | a :: b :: rest => by
    by_cases h : a.status = ProcStatus.finished ∧ b.status = ProcStatus.waiting <;>
      simp [serialScanC, h]

theorem serialScanC_get (l : List SinkChild) (i : Nat) :
    (serialScanC l)[i + 1]? =
      l[i]?.bind (fun a => l[i + 1]?.map (fun b =>
        if a.status = ProcStatus.finished ∧ b.status = ProcStatus.waiting then
          { b with status := ProcStatus.running }
        else b)) := by
  induction l using serialScanC.induct generalizing i with
  | case1 => simp [serialScanC]
  | case2 a =>
    cases i <;> simp [serialScanC]
  | case3 a b rest h ih =>
    obtain ⟨ha, hb⟩ := h
    have hrw : serialScanC (a :: b :: rest) =
        a :: serialScanC ({ b with status := ProcStatus.running } :: rest) := by
      simp only [serialScanC]
      rw [if_pos ⟨ha, hb⟩]
    rw [hrw, List.getElem?_cons_succ]
    cases i with
    | zero =>
      rw [serialScanC_head]
      simp [ha, hb]
    | succ j =>
      rw [ih j]
      cases j with
      | zero =>
        simp only [List.getElem?_cons_succ, List.getElem?_cons_zero]
        have hb2 : b.status ≠ ProcStatus.finished := by rw [hb]; intro hc; cases hc
        simp [hb2]
      | succ k => simp
  | case4 a b rest h ih =>
    have hrw : serialScanC (a :: b :: rest) = a :: serialScanC (b :: rest) := by
      simp only [serialScanC]
      rw [if_neg h]
    rw [hrw, List.getElem?_cons_succ]
    cases i with
    | zero =>
      rw [serialScanC_head]
      simp [h]
    | succ j =>
      rw [ih j]
      simp

/-- C3.  For a `running` `serial` node with children: when the first child is
`waiting` the pass starts exactly that child; otherwise the pass scans
adjacent pairs left-to-right and child `i+1` is started (set `running`)
exactly when child `i` is `finished` and child `i+1` is `waiting` — in
particular a child whose predecessor is in any other state is left exactly
as it was. -/
theorem claim_C3_serial_scheduling (c0 : SinkChild) (rest : List SinkChild) :
    (c0.status = ProcStatus.waiting →
      checkSerialChildren ProcStatus.running ProcNodeType.serial (c0 :: rest) =
        { c0 with status := ProcStatus.running } :: rest) ∧
    (c0.status ≠ ProcStatus.waiting →
      (checkSerialChildren ProcStatus.running ProcNodeType.serial (c0 :: rest))[0]? =
          some c0 ∧
        (∀ i, (checkSerialChildren ProcStatus.running ProcNodeType.serial
            (c0 :: rest))[i + 1]? =
          (c0 :: rest)[i]?.bind (fun a => (c0 :: rest)[i + 1]?.map (fun b =>
            if a.status = ProcStatus.finished ∧ b.status = ProcStatus.waiting then
              { b with status := ProcStatus.running }
            else b))) ∧
        (∀ i a b, (c0 :: rest)[i]? = some a → (c0 :: rest)[i + 1]? = some b →
          a.status ≠ ProcStatus.finished →
          (checkSerialChildren ProcStatus.running ProcNodeType.serial
            (c0 :: rest))[i + 1]? = some b)) := by
  constructor
  · intro h
    simp [checkSerialChildren, h]
  · intro h
    have hrw : checkSerialChildren ProcStatus.running ProcNodeType.serial (c0 :: rest) =
        serialScanC (c0 :: rest) := by
      simp [checkSerialChildren, h]
    refine ⟨by rw [hrw, serialScanC_head]; simp, fun i => by rw [hrw, serialScanC_get], ?_⟩
    intro i a b hai hbi hfin
    rw [hrw, serialScanC_get, hai, hbi]
    simp [hfin]

theorem claim_C3_serial_scheduling_witness :
    ((mkChild "s0" ProcStatus.finished false JSExit.null).status ≠ ProcStatus.waiting) ∧
      (checkSerialChildren ProcStatus.running ProcNodeType.serial
          [mkChild "s0" ProcStatus.finished false JSExit.null,
            mkChild "s1" ProcStatus.waiting false JSExit.null])[0 + 1]? =
        ([mkChild "s0" ProcStatus.finished false JSExit.null,
            mkChild "s1" ProcStatus.waiting false JSExit.null])[0]?.bind
          (fun a =>
            ([mkChild "s0" ProcStatus.finished false JSExit.null,
                mkChild "s1" ProcStatus.waiting false JSExit.null])[0 + 1]?.map (fun b =>
              if a.status = ProcStatus.finished ∧ b.status = ProcStatus.waiting then
                { b with status := ProcStatus.running }
              else b)) :=
  ⟨by decide,
    ((claim_C3_serial_scheduling (mkChild "s0" ProcStatus.finished false JSExit.null)
      [mkChild "s1" ProcStatus.waiting false JSExit.null]).2 (by decide)).2.1 0⟩

/-! ### C4: the history eviction window -/

theorem wipeHistory_window (emk cs : Bool) (H C : Int) (acc : LogAccumulated) (om : Bool) :
    (wipeHistory emk cs H C acc om).1.lines.length ≤
        (max 0 H).toNat + (max 1 (C + 1)).toNat + 1 ∧
      ((wipeHistory emk cs H C acc om).1.lines.length =
          (max 0 H).toNat + (max 1 (C + 1)).toNat + 1 →
        (wipeHistory emk cs H C acc om).1.lines[(max 0 H).toNat]? =
          some (markerLine cs)) := by
  unfold wipeHistory
  by_cases h : acc.lines.length > (max 0 H).toNat + (max 1 (C + 1)).toNat
  · rw [if_pos h]
    have htake : (acc.lines.take (max 0 H).toNat).length = (max 0 H).toNat := by
      rw [List.length_take]
      omega
    constructor
    · simp only [List.length_append, List.length_cons, List.length_drop, htake]
      omega
    · intro _
      rw [List.getElem?_append_right (by omega), htake]
      simp
  · rw [if_neg h]
    refine ⟨?_, ?_⟩
    · show acc.lines.length ≤ _
      omega
    · show acc.lines.length = _ → _
      intro hlen
      exact absurd hlen (by omega)

/-- C4.  After any notify pass (whatever the node's prior line history, the
children's logs and the prior append activity were), the node's visible line
count is at most `headSize + tailSize + 1`, with
`headSize = max(0, historyAlwaysKeepHeadSize)` and
`tailSize = max(1, historyCacheSize + 1)`; when the bound is reached, the
extra line at position `headSize` is the synthetic marker line, whose id is
`-1`. -/
theorem claim_C4_history_window (emk cs : Bool) (H C : Int) (n : NodeState) :
    (notifyUpdateNode emk cs H C n).logAccumulated.lines.length ≤
        (max 0 H).toNat + (max 1 (C + 1)).toNat + 1 ∧
      ((notifyUpdateNode emk cs H C n).logAccumulated.lines.length =
          (max 0 H).toNat + (max 1 (C + 1)).toNat + 1 →
        (notifyUpdateNode emk cs H C n).logAccumulated.lines[(max 0 H).toNat]? =
          some (markerLine cs)) ∧
      (markerLine cs).main.id = -1 := by
  have hacc : (notifyUpdateNode emk cs H C n).logAccumulated =
      (wipeHistory emk cs H C
        (if (nonIgnored n.children).length > 0 then
          mergeNewChildLines emk n.logAccumulated (childrenMergeInput (nonIgnored n.children))
        else n.logAccumulated) n.logOmitted).1 := by
    unfold notifyUpdateNode
    by_cases h : (nonIgnored n.children).length > 0 <;> simp [h, checkSerialChildren]
  have hw := wipeHistory_window emk cs H C
    (if (nonIgnored n.children).length > 0 then
      mergeNewChildLines emk n.logAccumulated (childrenMergeInput (nonIgnored n.children))
    else n.logAccumulated) n.logOmitted
  rw [hacc]
  exact ⟨hw.1, hw.2, rfl⟩

theorem claim_C4_history_window_witness :
    ((notifyUpdateNode false false 0 0 wipeDemoNode).logAccumulated.lines.length =
        (max 0 (0 : Int)).toNat + (max 1 ((0 : Int) + 1)).toNat + 1) ∧
      (notifyUpdateNode false false 0 0 wipeDemoNode).logAccumulated.lines[
          (max 0 (0 : Int)).toNat]? = some (markerLine false) :=
  ⟨by decide, (claim_C4_history_window false false 0 0 wipeDemoNode).2.1 (by decide)⟩

/-! ### C10: read marking is a complete no-op when the unread marker is off -/

/-- C10.  With `enableUnreadMarker` false, `markNodeAsRead` returns before
the null check and before any mutation: for every argument (including a
missing node) the tree is unchanged — no read flag flips, no unread set is
cleared — and the notify pass at the target does not run. -/
theorem claim_C10_markNodeAsRead_disabled (node : Option PTree) :
    markNodeAsRead false node = (node, false) := rfl

/-! ### C6: trie construction conflict detection -/

theorem infix_data_append (x p q : String) : List.IsInfix x.data ((p ++ x ++ q).data) := by
  rw [String.data_append, String.data_append]
  exact List.infix_append _ _ _

theorem conflictMsg_names_both (b : String) (seq : List NotiosConfigKeymapping) (a : String) :
    List.IsInfix b.data ((conflictMsg b seq a).data) ∧
      List.IsInfix a.data ((conflictMsg b seq a).data) := by
  constructor
  · have h : conflictMsg b seq a = "Keymap for action \"" ++ b ++
        ("\" [" ++ String.intercalate " " (seq.map keymappingToRepr) ++
          "] including keymap for action \"" ++ a ++ "\".") := by
      unfold conflictMsg
      simp [String.append_assoc]
    rw [h]
    exact infix_data_append b _ _
  · show List.IsInfix a.data (("Keymap for action \"" ++ b ++ "\" [" ++
      String.intercalate " " (seq.map keymappingToRepr) ++
        "] including keymap for action \"" ++ a ++ "\".").data)
    exact infix_data_append a _ _

theorem insertSeq_fresh (a : String) (seqFull : List NotiosConfigKeymapping) :
    ∀ rest : List NotiosConfigKeymapping,
      insertSeq a seqFull (KeymappingNode.node [] Option.none) rest = .ok (mkPath rest a)
  | [] => rfl
  | one :: rest => by
    have ih := insertSeq_fresh a seqFull rest
    simp [insertSeq, trieGet, trieSet, KeymappingNode.action, KeymappingNode.children,
      ih, mkPath, Except.map]

theorem except_bind_ok {α β : Type} (x : α) (f : α → Except String β) :
    (Except.ok x : Except String α) >>= f = f x := rfl

theorem except_bind_error {α β : Type} (e : String) (f : α → Except String β) :
    (Except.error e : Except String α) >>= f = .error e := rfl

theorem insertSeq_cons (action : String) (seq : List NotiosConfigKeymapping)
    (cur : KeymappingNode) (one : NotiosConfigKeymapping)
    (rest : List NotiosConfigKeymapping) :
    insertSeq action seq cur (one :: rest) =
      (match ((trieGet cur.children (keymappingToString one)).getD
          (.node [] Option.none)).action with
        | some other => .error (conflictMsg action seq other)
        | Option.none =>
          (insertSeq action seq
              ((trieGet cur.children (keymappingToString one)).getD (.node [] Option.none))
              rest).map
            (fun c2 =>
              .node (trieSet cur.children (keymappingToString one) c2) cur.action)) := rfl

theorem insertSeq_conflict (b : String) (seqFull : List NotiosConfigKeymapping) (a : String) :
    ∀ (s t : List NotiosConfigKeymapping), s ≠ [] →
      insertSeq b seqFull (mkPath s a) (s ++ t) = .error (conflictMsg b seqFull a)
  | [], _, h => absurd rfl h
  | [k], t, _ => by
    rw [show ([k] ++ t) = k :: t from rfl, insertSeq_cons]
    have hchild : (trieGet (mkPath [k] a).children (keymappingToString k)).getD
        (KeymappingNode.node [] Option.none) = mkPath [] a := by
      simp [mkPath, trieGet, KeymappingNode.children, List.find?]
    rw [hchild]
    rfl
  | k1 :: k2 :: s', t, _ => by
    have ih := insertSeq_conflict b seqFull a (k2 :: s') t (by simp)
    rw [show ((k1 :: k2 :: s') ++ t) = k1 :: ((k2 :: s') ++ t) from rfl, insertSeq_cons]
    have hchild : (trieGet (mkPath (k1 :: k2 :: s') a).children (keymappingToString k1)).getD
        (KeymappingNode.node [] Option.none) = mkPath (k2 :: s') a := by
      simp [mkPath, trieGet, KeymappingNode.children, List.find?]
    rw [hchild, ih]
    rfl

theorem constructKeymapping_two (a1 : String) (s1 : List NotiosConfigKeymapping)
    (a2 : String) (s2 : List NotiosConfigKeymapping) :
    constructKeymapping [(a1, [NotiosConfigKeymappingRoot.seq s1]),
        (a2, [NotiosConfigKeymappingRoot.seq s2])] =
      (sortPairsByLen [(a1, s1), (a2, s2)]).foldlM insertPair
        (KeymappingNode.node [] Option.none) := rfl

/-- C6.  For a configuration binding action `A` to a non-empty sequence `s`
and action `B` to `s ++ t` (so one bound sequence is a — possibly equal —
prefix of the other), trie construction fails with an error message naming
both actions, in both declaration orders. -/
theorem claim_C6_conflict_order_independent (A B : String)
    (s t : List NotiosConfigKeymapping) (hs : s ≠ []) :
    (∃ m, constructKeymapping [(A, [NotiosConfigKeymappingRoot.seq s]),
        (B, [NotiosConfigKeymappingRoot.seq (s ++ t)])] = .error m ∧
      List.IsInfix A.data m.data ∧ List.IsInfix B.data m.data) ∧
    (∃ m, constructKeymapping [(B, [NotiosConfigKeymappingRoot.seq (s ++ t)]),
        (A, [NotiosConfigKeymappingRoot.seq s])] = .error m ∧
      List.IsInfix A.data m.data ∧ List.IsInfix B.data m.data) := by
  have hsE : s.isEmpty = false := by
    cases s with
    | nil => exact absurd rfl hs
    | cons x xs => rfl
  have hstE : (s ++ t).isEmpty = false := by
    cases s with
    | nil => exact absurd rfl hs
    | cons x xs => rfl
  have h1 : insertPair (KeymappingNode.node [] Option.none) (A, s) = .ok (mkPath s A) := by
    simp [insertPair, hsE, insertSeq_fresh]
  have h1B : insertPair (KeymappingNode.node [] Option.none) (B, s ++ t) =
      .ok (mkPath (s ++ t) B) := by
    simp [insertPair, hstE, insertSeq_fresh]
  have h2 : insertPair (mkPath s A) (B, s ++ t) = .error (conflictMsg B (s ++ t) A) := by
    simp [insertPair, hstE, insertSeq_conflict B (s ++ t) A s t hs]
  constructor
  · refine ⟨conflictMsg B (s ++ t) A, ?_, (conflictMsg_names_both B (s ++ t) A).2,
      (conflictMsg_names_both B (s ++ t) A).1⟩
    have hsort : sortPairsByLen [(A, s), (B, s ++ t)] = [(A, s), (B, s ++ t)] := by
      simp [sortPairsByLen, orderedInsertByLen, List.length_append]
    rw [constructKeymapping_two, hsort, List.foldlM_cons, h1, except_bind_ok,
      List.foldlM_cons, h2, except_bind_error]
  · by_cases ht : t = []
    · subst ht
      refine ⟨conflictMsg A s B, ?_, (conflictMsg_names_both A s B).1,
        (conflictMsg_names_both A s B).2⟩
      rw [List.append_nil]
      have hsort : sortPairsByLen [(B, s), (A, s)] = [(B, s), (A, s)] := by
        simp [sortPairsByLen, orderedInsertByLen]
      have h3 : insertPair (KeymappingNode.node [] Option.none) (B, s) =
          .ok (mkPath s B) := by
        simp [insertPair, hsE, insertSeq_fresh]
      have h4 : insertPair (mkPath s B) (A, s) = .error (conflictMsg A s B) := by
        have hc := insertSeq_conflict A s B s [] hs
        rw [List.append_nil] at hc
        simp [insertPair, hsE, hc]
      rw [constructKeymapping_two, hsort, List.foldlM_cons, h3, except_bind_ok,
        List.foldlM_cons, h4, except_bind_error]
    · refine ⟨conflictMsg B (s ++ t) A, ?_, (conflictMsg_names_both B (s ++ t) A).2,
        (conflictMsg_names_both B (s ++ t) A).1⟩
      have htlen : 0 < t.length := List.length_pos.mpr ht
      have hsort : sortPairsByLen [(B, s ++ t), (A, s)] = [(A, s), (B, s ++ t)] := by
        have hc : ¬ ((s ++ t).length ≤ s.length) := by
          rw [List.length_append]
          omega
        simp [sortPairsByLen, orderedInsertByLen, hc]
        intro h
        exact absurd h ht
      rw [constructKeymapping_two, hsort, List.foldlM_cons, h1, except_bind_ok,
        List.foldlM_cons, h2, except_bind_error]

theorem claim_C6_conflict_order_independent_witness :
    (([gKey] : List NotiosConfigKeymapping) ≠ []) ∧
      (∃ m, constructKeymapping [("A", [NotiosConfigKeymappingRoot.seq [gKey]]),
          ("B", [NotiosConfigKeymappingRoot.seq ([gKey] ++ [gKey])])] = .error m ∧
        List.IsInfix "A".data m.data ∧ List.IsInfix "B".data m.data) ∧
      (∃ m, constructKeymapping [("B", [NotiosConfigKeymappingRoot.seq ([gKey] ++ [gKey])]),
          ("A", [NotiosConfigKeymappingRoot.seq [gKey]])] = .error m ∧
        List.IsInfix "A".data m.data ∧ List.IsInfix "B".data m.data) :=
  ⟨by simp,
    (claim_C6_conflict_order_independent "A" "B" [gKey] [gKey] (by simp)).1,
    (claim_C6_conflict_order_independent "A" "B" [gKey] [gKey] (by simp)).2⟩

/-! ### C7: the stateful matcher -/

/-- C7.  For every constructed trie and every keystroke: when the normalized
token has no child at the current position the matcher resets to the root and
fires nothing (the failing key is not retried from the root); a descent onto
a terminal node fires exactly its action and resets to the root; a descent
onto a non-terminal node becomes the new position.  Concretely, with
`["g","g"]` bound to `"top"`: `g` then `x` resets to the root without firing,
and `g` then `g` fires `"top"` exactly once and returns to the root. -/
theorem claim_C7_matcher_step (root cur : KeymappingNode) (input : String) (key : Key) :
    (trieGet cur.children (normalizeKeyToken input key) = Option.none →
      useActionStep root cur input key = (root, Option.none)) ∧
    (∀ nx a, trieGet cur.children (normalizeKeyToken input key) = some nx →
      nx.action = some a → useActionStep root cur input key = (root, some a)) ∧
    (∀ nx, trieGet cur.children (normalizeKeyToken input key) = some nx →
      nx.action = Option.none → useActionStep root cur input key = (nx, Option.none)) ∧
    constructKeymapping topConfig = .ok gTrie ∧
    useActionStep gTrie gTrie "g" plainKey = (gMid, Option.none) ∧
    useActionStep gTrie gMid "x" plainKey = (gTrie, Option.none) ∧
    useActionStep gTrie gMid "g" plainKey = (gTrie, some "top") := by
  refine ⟨?_, ?_, ?_, rfl, rfl, rfl, rfl⟩
  · intro h
    simp [useActionStep, matchKeymapping, h]
  · intro nx a h ha
    simp [useActionStep, matchKeymapping, h, ha]
  · intro nx h ha
    simp [useActionStep, matchKeymapping, h, ha]

theorem claim_C7_matcher_step_witness :
    (trieGet gMid.children (normalizeKeyToken "x" plainKey) = Option.none) ∧
      useActionStep gTrie gMid "x" plainKey = (gTrie, Option.none) :=
  ⟨rfl, (claim_C7_matcher_step gTrie gMid "x" plainKey).1 rfl⟩

/-! ### C5: a notify pass with no new input leaves the lines unchanged -/

theorem foldl_append_length_le (l : List String) :
    ∀ init : String, init.length ≤ (l.foldl (· ++ ·) init).length := by
  induction l with
  | nil => intro init; simp
  | cons x xs ih =>
    intro init
    rw [List.foldl_cons]
    calc init.length ≤ (init ++ x).length := by rw [String.length_append]; omega
    _ ≤ _ := ih (init ++ x)

theorem mem_foldl_append_length_le (l : List String) (k : String) :
    ∀ init : String, k ∈ l → k.length ≤ (l.foldl (· ++ ·) init).length := by
  induction l with
  | nil => intro init h; cases h
  | cons x xs ih =>
    intro init h
    rw [List.foldl_cons]
    rcases List.mem_cons.mp h with rfl | h2
    · calc k.length ≤ (init ++ k).length := by rw [String.length_append]; omega
      _ ≤ _ := foldl_append_length_le xs (init ++ k)
    · exact ih (init ++ x) h2

theorem freshTitleGo_not_mem (known : List String) (name : String) :
    ∀ (fuel cnt : Nat), freshTitleGo known name fuel cnt ∉ known := by
  intro fuel
  induction fuel with
  | zero =>
    intro cnt hmem
    have h1 := mem_foldl_append_length_le known _ "" hmem
    have h2 : (freshTitleGo known name 0 cnt).length =
        (known.foldl (· ++ ·) "").length + name.length + 1 := by
      show ((known.foldl (· ++ ·) "" ++ name) ++ "!").length = _
      rw [String.length_append, String.length_append]
      rfl
    omega
  | succ f ih =>
    intro cnt hmem
    by_cases hc : known.contains (titleCand name cnt)
    · have he : freshTitleGo known name (f + 1) cnt = freshTitleGo known name f (cnt + 1) := by
        show (if known.contains (titleCand name cnt) = true then
            freshTitleGo known name f (cnt + 1)
          else titleCand name cnt) = freshTitleGo known name f (cnt + 1)
        rw [if_pos hc]
      rw [he] at hmem
      exact ih (cnt + 1) hmem
    · have he : freshTitleGo known name (f + 1) cnt = titleCand name cnt := by
        show (if known.contains (titleCand name cnt) = true then
            freshTitleGo known name f (cnt + 1)
          else titleCand name cnt) = titleCand name cnt
        rw [if_neg hc]
      rw [he] at hmem
      exact hc (by simpa using hmem)

theorem freshTitle_not_mem (known : List String) (name : String) :
    freshTitle known name ∉ known :=
  freshTitleGo_not_mem known name (known.length + 1) 0

theorem recordSet_keyAll (m : List (String × LogLine)) (k : String) (v : LogLine) :
    keyAll (recordSet m k v) k v := by
  unfold recordSet keyAll
  by_cases h : m.any (fun p => p.1 = k)
  · rw [if_pos h]
    obtain ⟨p0, hp0, hk0⟩ := List.any_eq_true.mp h
    have hp0k : p0.1 = k := of_decide_eq_true hk0
    refine ⟨⟨(k, v), List.mem_map.mpr ⟨p0, hp0, by simp [hp0k]⟩, rfl⟩, ?_⟩
    intro q hq hqk
    obtain ⟨p, hp, hfp⟩ := List.mem_map.mp hq
    by_cases hpk : p.1 = k
    · rw [← hfp]
      simp [hpk]
    · exfalso
      rw [← hfp, if_neg hpk] at hqk
      exact hpk hqk
  · rw [if_neg h]
    refine ⟨⟨(k, v), List.mem_append_right _ (by simp), rfl⟩, ?_⟩
    intro q hq hqk
    rcases List.mem_append.mp hq with hql | hqr
    · exfalso
      apply h
      rw [List.any_eq_true]
      exact ⟨q, hql, by simp [hqk]⟩
    · have hq2 : q = (k, v) := by simpa using hqr
      rw [hq2]

theorem recordSet_keyAll_ne (m : List (String × LogLine)) (k : String) (v : LogLine)
    (k' : String) (w : LogLine) (hne : k' ≠ k) (hka : keyAll m k v) :
    keyAll (recordSet m k' w) k v := by
  obtain ⟨⟨p0, hp0, hk0⟩, hall⟩ := hka
  unfold recordSet
  by_cases h : m.any (fun p => p.1 = k')
  · rw [if_pos h]
    refine ⟨⟨p0, List.mem_map.mpr ⟨p0, hp0, ?_⟩, hk0⟩, ?_⟩
    · rw [if_neg (by rw [hk0]; exact fun hc => hne hc.symm)]
    · intro q hq hqk
      obtain ⟨p, hp, hfp⟩ := List.mem_map.mp hq
      by_cases hpk : p.1 = k'
      · exfalso
        rw [← hfp, if_pos hpk] at hqk
        exact hne hqk
      · rw [← hfp, if_neg hpk] at hqk
        rw [← hfp, if_neg hpk]
        exact hall p hp hqk
  · rw [if_neg h]
    refine ⟨⟨p0, List.mem_append_left _ hp0, hk0⟩, ?_⟩
    intro q hq hqk
    rcases List.mem_append.mp hq with hql | hqr
    · exact hall q hql hqk
    · exfalso
      have hq2 : q = (k', w) := by simpa using hqr
      rw [hq2] at hqk
      exact hne hqk

theorem recordGet_keyAll (m : List (String × LogLine)) (k : String) (v : LogLine)
    (hka : keyAll m k v) : recordGet m k = some v := by
  obtain ⟨⟨p0, hp0, hk0⟩, hall⟩ := hka
  unfold recordGet
  have hsome : (m.find? (fun p => p.1 = k)).isSome := by
    rw [List.find?_isSome]
    exact ⟨p0, hp0, by simp [hk0]⟩
  obtain ⟨q, hq⟩ := Option.isSome_iff_exists.mp hsome
  rw [hq]
  have h1 := List.find?_some hq
  have h2 := List.mem_of_find?_eq_some hq
  simp only [decide_eq_true_eq] at h1
  simp [hall q h2 h1]

theorem recordSet_self (m : List (String × LogLine)) (k : String) (v : LogLine)
    (hka : keyAll m k v) : recordSet m k v = m := by
  obtain ⟨⟨p0, hp0, hk0⟩, hall⟩ := hka
  unfold recordSet
  rw [if_pos (by rw [List.any_eq_true]; exact ⟨p0, hp0, by simp [hk0]⟩)]
  have hcg : ∀ p ∈ m, (if p.1 = k then (k, v) else p) = id p := by
    intro p hp
    by_cases hpk : p.1 = k
    · simp only [if_pos hpk, id]
      exact (Prod.ext hpk (hall p hp hpk)).symm
    · simp [hpk]
  rw [List.map_congr_left hcg, List.map_id]

theorem mergeChildStep_fields (acc : MergeAcc) (c : String × LogAccumulated) :
    (mergeChildStep acc c).knownTitle = acc.knownTitle ++ [freshTitle acc.knownTitle c.1] ∧
      (mergeChildStep acc c).lastMap =
        (if realLenOf c.2.lines > 0 then
          recordSet acc.lastMap (freshTitle acc.knownTitle c.1)
            (c.2.lines.getD (realLenOf c.2.lines - 1) default)
        else acc.lastMap) := by
  unfold mergeChildStep
  by_cases h : realLenOf c.2.lines > 0 <;> simp [h]

theorem merge_fold_keyAll (cs : List (String × LogAccumulated)) :
    ∀ (acc : MergeAcc) (k : String) (v : LogLine),
      k ∈ acc.knownTitle → keyAll acc.lastMap k v →
      keyAll (cs.foldl mergeChildStep acc).lastMap k v := by
  induction cs with
  | nil => intro acc k v _ hka; simpa using hka
  | cons c cs ih =>
    intro acc k v hk hka
    rw [List.foldl_cons]
    apply ih
    · rw [(mergeChildStep_fields acc c).1]
      exact List.mem_append_left _ hk
    · rw [(mergeChildStep_fields acc c).2]
      by_cases h : realLenOf c.2.lines > 0
      · rw [if_pos h]
        refine recordSet_keyAll_ne _ _ _ _ _ ?_ hka
        intro he
        exact freshTitle_not_mem acc.knownTitle c.1 (he ▸ hk)
      · rw [if_neg h]
        exact hka

theorem realLenOf_le (ls : List LogLine) : realLenOf ls ≤ ls.length := by
  unfold realLenOf
  split_ifs <;> omega

theorem backScan_self (ls : List LogLine) (f : Nat) (hf : f < ls.length) :
    backScan ls ((ls.getD f default).main.id) (f + 1) = f + 1 := by
  have hget : ls.get? f = some (ls.getD f default) := by
    rw [List.get?_eq_getElem?, List.getElem?_eq_getElem hf, List.getD_eq_getElem?_getD,
      List.getElem?_eq_getElem hf]
    rfl
  unfold backScan
  rw [hget]
  simp

theorem backScan_self' (ls : List LogLine) (rl : Nat) (h0 : 0 < rl) (hle : rl ≤ ls.length) :
    backScan ls ((ls.getD (rl - 1) default).main.id) rl = rl := by
  obtain ⟨f, rfl⟩ : ∃ f, rl = f + 1 := ⟨rl - 1, by omega⟩
  simpa using backScan_self ls f (by omega)

theorem mergeChildStep_neg_eq (kt : List String) (l : Nat) (m : List (String × LogLine))
    (b : List LogLine) (c : String × LogAccumulated) (h : ¬ realLenOf c.2.lines > 0) :
    mergeChildStep { knownTitle := kt, lineCount := l, lastMap := m, beingAdded := b } c =
      { knownTitle := kt ++ [freshTitle kt c.1], lineCount := l + c.2.lineCount,
        lastMap := m, beingAdded := b } := by
  unfold mergeChildStep
  rw [if_neg h]

theorem mergeChildStep_pos_eq (kt : List String) (l : Nat) (m : List (String × LogLine))
    (b : List LogLine) (c : String × LogAccumulated) (h : realLenOf c.2.lines > 0)
    (hget : recordGet m (freshTitle kt c.1) =
      some (c.2.lines.getD (realLenOf c.2.lines - 1) default)) :
    mergeChildStep { knownTitle := kt, lineCount := l, lastMap := m, beingAdded := b } c =
      { knownTitle := kt ++ [freshTitle kt c.1], lineCount := l + c.2.lineCount,
        lastMap := recordSet m (freshTitle kt c.1)
          (c.2.lines.getD (realLenOf c.2.lines - 1) default),
        beingAdded := b } := by
  unfold mergeChildStep
  rw [if_pos h, hget]
  have hb := backScan_self' c.2.lines (realLenOf c.2.lines) h (realLenOf_le c.2.lines)
  rw [List.getD_eq_getElem?_getD] at hb
  have hnil : ((c.2.lines.take (realLenOf c.2.lines)).drop (realLenOf c.2.lines)) = [] :=
    List.drop_eq_nil_of_le (by rw [List.length_take]; exact min_le_left _ _)
  simp [hb, hnil]

theorem pass1_establishes (cs : List (String × LogAccumulated)) :
    ∀ acc : MergeAcc, pass2Ready acc.knownTitle (cs.foldl mergeChildStep acc).lastMap cs := by
  induction cs with
  | nil => intro acc; trivial
  | cons c cs ih =>
    intro acc
    rw [List.foldl_cons]
    refine ⟨?_, ?_⟩
    · intro h
      apply merge_fold_keyAll cs (mergeChildStep acc c)
      · rw [(mergeChildStep_fields acc c).1]
        exact List.mem_append_right _ (by simp)
      · rw [(mergeChildStep_fields acc c).2, if_pos h]
        exact recordSet_keyAll _ _ _
    · have hih := ih (mergeChildStep acc c)
      rw [(mergeChildStep_fields acc c).1] at hih
      exact hih

theorem pass2_noop (cs : List (String × LogAccumulated)) :
    ∀ (kt : List String) (lc' : Nat) (m : List (String × LogLine)) (ba' : List LogLine),
      pass2Ready kt m cs →
      (cs.foldl mergeChildStep
          { knownTitle := kt, lineCount := lc', lastMap := m, beingAdded := ba' }).beingAdded
          = ba' ∧
        (cs.foldl mergeChildStep
          { knownTitle := kt, lineCount := lc', lastMap := m, beingAdded := ba' }).lastMap
          = m := by
  induction cs with
  | nil => intro kt lc' m ba' _; exact ⟨rfl, rfl⟩
  | cons c cs ih =>
    intro kt lc' m ba' hready
    obtain ⟨h1, h2⟩ := hready
    rw [List.foldl_cons]
    by_cases h : realLenOf c.2.lines > 0
    · have hka := h1 h
      have hget := recordGet_keyAll _ _ _ hka
      rw [mergeChildStep_pos_eq kt lc' m ba' c h hget, recordSet_self m _ _ hka]
      exact ih (kt ++ [freshTitle kt c.1]) _ m ba' h2
    · rw [mergeChildStep_neg_eq kt lc' m ba' c h]
      exact ih (kt ++ [freshTitle kt c.1]) _ m ba' h2

theorem serialScanC_core : ∀ l : List SinkChild, (serialScanC l).map coreProj = l.map coreProj := by
  intro l
  induction l using serialScanC.induct with
  | case1 => simp [serialScanC]
  | case2 a => simp [serialScanC]
  | case3 a b rest h ih =>
    have hrw : serialScanC (a :: b :: rest) =
        a :: serialScanC ({ b with status := ProcStatus.running } :: rest) := by
      simp only [serialScanC]
      rw [if_pos h]
    rw [hrw, List.map_cons, ih]
    simp [coreProj]
  | case4 a b rest h ih =>
    have hrw : serialScanC (a :: b :: rest) = a :: serialScanC (b :: rest) := by
      simp only [serialScanC]
      rw [if_neg h]
    rw [hrw, List.map_cons, ih]
    simp

theorem checkSerialChildren_core (st : ProcStatus) (ty : ProcNodeType) (cs : List SinkChild) :
    (checkSerialChildren st ty cs).map coreProj = cs.map coreProj := by
  unfold checkSerialChildren
  by_cases h : st = ProcStatus.running ∧ ty = ProcNodeType.serial ∧ cs.length > 0
  · rw [if_pos h]
    cases cs with
    | nil => rfl
    | cons c rest =>
      by_cases hw : c.status = ProcStatus.waiting
      · simp [hw, coreProj]
      · simp [hw, serialScanC_core]
  · rw [if_neg h]

theorem notifyUpdateNode_logAcc (emk cst : Bool) (H C : Int) (n : NodeState) :
    (notifyUpdateNode emk cst H C n).logAccumulated =
      (wipeHistory emk cst H C
        (if (nonIgnored n.children).length > 0 then
          mergeNewChildLines emk n.logAccumulated (childrenMergeInput (nonIgnored n.children))
        else n.logAccumulated) n.logOmitted).1 := by
  unfold notifyUpdateNode
  by_cases h : (nonIgnored n.children).length > 0 <;> simp [h, checkSerialChildren]

theorem notifyUpdateNode_children_core (emk cst : Bool) (H C : Int) (n : NodeState) :
    (notifyUpdateNode emk cst H C n).children.map coreProj = n.children.map coreProj := by
  unfold notifyUpdateNode
  by_cases h : (nonIgnored n.children).length > 0 <;>
    simp [h, checkSerialChildren_core]

theorem core_nonIgnored_input : ∀ (l2 l : List SinkChild),
    l2.map coreProj = l.map coreProj →
    childrenMergeInput (nonIgnored l2) = childrenMergeInput (nonIgnored l) ∧
      (nonIgnored l2).length = (nonIgnored l).length := by
  intro l2
  induction l2 with
  | nil =>
    intro l h
    have : l = [] := by
      cases l with
      | nil => rfl
      | cons c t => simp [coreProj] at h
    subst this
    exact ⟨rfl, rfl⟩
  | cons c2 t2 ih =>
    intro l h
    cases l with
    | nil => simp [coreProj] at h
    | cons c t =>
      simp only [List.map_cons, List.cons.injEq] at h
      obtain ⟨hc, ht⟩ := h
      have hcf : c2.name = c.name ∧ c2.ignored = c.ignored ∧ c2.logAccumulated = c.logAccumulated := by
        simpa [coreProj, Prod.ext_iff] using hc
      have hrec := ih t ht
      unfold nonIgnored childrenMergeInput at hrec ⊢
      by_cases hi : c.ignored
      · simpa [List.filter_cons, hcf.2.1, hi] using hrec
      · have hi2 : c.ignored = false := by simpa using hi
        simp [List.filter_cons, hcf.2.1, hi2, hcf.1, hcf.2.2, hrec.1, hrec.2]

theorem wipeHistory_lastMap (emk cst : Bool) (H C : Int) (acc : LogAccumulated) (om : Bool) :
    (wipeHistory emk cst H C acc om).1.lastLineToTitle = acc.lastLineToTitle := by
  unfold wipeHistory
  by_cases h : acc.lines.length > (max 0 H).toNat + (max 1 (C + 1)).toNat <;> simp [h]

theorem wipeHistory_lines_shape (emk cst : Bool) (H C : Int) (acc : LogAccumulated) (om : Bool) :
    ((wipeHistory emk cst H C acc om).1.lines = acc.lines ∧
        acc.lines.length ≤ (max 0 H).toNat + (max 1 (C + 1)).toNat) ∨
      ∃ head tail, head.length = (max 0 H).toNat ∧ tail.length = (max 1 (C + 1)).toNat ∧
        (wipeHistory emk cst H C acc om).1.lines = head ++ markerLine cst :: tail := by
  unfold wipeHistory
  by_cases h : acc.lines.length > (max 0 H).toNat + (max 1 (C + 1)).toNat
  · right
    rw [if_pos h]
    refine ⟨acc.lines.take (max 0 H).toNat,
      (acc.lines.drop (max 0 H).toNat).drop
        ((acc.lines.drop (max 0 H).toNat).length - (max 1 (C + 1)).toNat), ?_, ?_, rfl⟩
    · rw [List.length_take]
      omega
    · simp only [List.length_drop]
      omega
  · left
    rw [if_neg h]
    exact ⟨rfl, by omega⟩

theorem wipeHistory_lines_idem (emk emk2 cst : Bool) (H C : Int)
    (acc acc2 : LogAccumulated) (om om2 : Bool)
    (h : acc2.lines = (wipeHistory emk cst H C acc om).1.lines) :
    (wipeHistory emk2 cst H C acc2 om2).1.lines = acc2.lines := by
  rcases wipeHistory_lines_shape emk cst H C acc om with ⟨hsh, hle⟩ | ⟨head, tail, hh, ht2, hsh⟩
  · unfold wipeHistory
    rw [if_neg (by rw [h, hsh]; omega)]
  · have hl : acc2.lines = head ++ markerLine cst :: tail := h.trans hsh
    have hlen : acc2.lines.length = (max 0 H).toNat + (max 1 (C + 1)).toNat + 1 := by
      rw [hl]
      simp only [List.length_append, List.length_cons]
      omega
    unfold wipeHistory
    rw [if_pos (by omega)]
    simp only
    rw [hl, List.take_left' hh, List.drop_left' hh]
    have hdl : (markerLine cst :: tail).length - (max 1 (C + 1)).toNat = 1 := by
      rw [List.length_cons]
      omega
    rw [hdl]
    rfl

/-- C5.  Re-running the notify pass when no new input has arrived since the
previous pass — the children's logs are exactly what the previous pass
already merged — leaves the node's visible line sequence unchanged: the
hierarchical merge finds no newly committed child lines, and re-applying the
eviction to a history already inside (or exactly at) the window bound
reproduces the same lines, with nothing duplicated, dropped or shifted. -/
theorem claim_C5_notify_idempotent (emk cst : Bool) (H C : Int) (n : NodeState) :
    (notifyUpdateNode emk cst H C (notifyUpdateNode emk cst H C n)).logAccumulated.lines =
      (notifyUpdateNode emk cst H C n).logAccumulated.lines := by
  set N1 := notifyUpdateNode emk cst H C n with hN1
  have hcore := notifyUpdateNode_children_core emk cst H C n
  have hinput := core_nonIgnored_input N1.children n.children hcore
  have hacc2 := notifyUpdateNode_logAcc emk cst H C N1
  have hacc1 := notifyUpdateNode_logAcc emk cst H C n
  by_cases h : (nonIgnored n.children).length > 0
  · have h2 : (nonIgnored N1.children).length > 0 := by rw [hinput.2]; exact h
    rw [hacc2, if_pos h2, hinput.1]
    have hmap : N1.logAccumulated.lastLineToTitle =
        ((childrenMergeInput (nonIgnored n.children)).foldl mergeChildStep
          { knownTitle := [], lineCount := 0,
            lastMap := n.logAccumulated.lastLineToTitle, beingAdded := [] }).lastMap := by
      rw [hacc1, if_pos h, wipeHistory_lastMap]
      rfl
    have hready : pass2Ready [] N1.logAccumulated.lastLineToTitle
        (childrenMergeInput (nonIgnored n.children)) := by
      rw [hmap]
      have hest := pass1_establishes (childrenMergeInput (nonIgnored n.children))
        { knownTitle := [], lineCount := 0,
          lastMap := n.logAccumulated.lastLineToTitle, beingAdded := [] }
      simpa using hest
    have hnoop := pass2_noop (childrenMergeInput (nonIgnored n.children)) []
      0 N1.logAccumulated.lastLineToTitle [] hready
    have hmerge2 : (mergeNewChildLines emk N1.logAccumulated
        (childrenMergeInput (nonIgnored n.children))).lines = N1.logAccumulated.lines := by
      simp only [mergeNewChildLines]
      rw [hnoop.1]
      simp [sortByTs]
    have hlines1 : (mergeNewChildLines emk N1.logAccumulated
        (childrenMergeInput (nonIgnored n.children))).lines =
          (wipeHistory emk cst H C
            (mergeNewChildLines emk n.logAccumulated
              (childrenMergeInput (nonIgnored n.children))) n.logOmitted).1.lines := by
      rw [hmerge2, hacc1, if_pos h]
    rw [wipeHistory_lines_idem emk emk cst H C
      (mergeNewChildLines emk n.logAccumulated (childrenMergeInput (nonIgnored n.children)))
      (mergeNewChildLines emk N1.logAccumulated (childrenMergeInput (nonIgnored n.children)))
      n.logOmitted N1.logOmitted hlines1]
    exact hmerge2
  · have h2 : ¬ (nonIgnored N1.children).length > 0 := by rw [hinput.2]; exact h
    rw [hacc2, if_neg h2]
    exact wipeHistory_lines_idem emk emk cst H C n.logAccumulated N1.logAccumulated
      n.logOmitted N1.logOmitted (by rw [hacc1, if_neg h])

/-! ### C8/C9: kill and the process-exit callback -/

theorem notifyUpdateNode_children (emk cst : Bool) (H C : Int) (n : NodeState) :
    (notifyUpdateNode emk cst H C n).children =
      checkSerialChildren
        (if (nonIgnored n.children).length > 0 then
          recomputeStatus n.hasProcOwn ((nonIgnored n.children).map (·.status))
        else n.status)
        n.ty n.children := by
  unfold notifyUpdateNode
  by_cases h : (nonIgnored n.children).length > 0 <;> simp [h]

theorem notifyUpdateNode_hasProcOwn (emk cst : Bool) (H C : Int) (n : NodeState) :
    (notifyUpdateNode emk cst H C n).hasProcOwn = n.hasProcOwn ∧
      (notifyUpdateNode emk cst H C n).ty = n.ty := by
  unfold notifyUpdateNode
  by_cases h : (nonIgnored n.children).length > 0 <;> simp [h, checkSerialChildren]

theorem checkSerialChildren_not_running (st : ProcStatus) (ty : ProcNodeType)
    (cs : List SinkChild) (h : st ≠ ProcStatus.running) :
    checkSerialChildren st ty cs = cs := by
  unfold checkSerialChildren
  rw [if_neg (by rintro ⟨h1, -⟩; exact h h1)]

theorem ensureLine_of_ne (emk : Bool) (acc : LogAccumulated) (h : acc.lines ≠ []) :
    ensureLine emk acc = acc := by
  unfold ensureLine
  rw [if_neg (by simpa using h)]

theorem commitLast_pending (acc : LogAccumulated) (now : Nat) (X : List LogLine) (l : LogLine)
    (hsh : acc.lines = X ++ [l]) (hpend : l.main.timestamp = Option.none) :
    commitLast acc now =
      ({ acc with lines := X ++ [commitLine l now], lineCount := acc.lineCount + 1 }, now + 1) := by
  unfold commitLast
  rw [hsh, List.getLast?_concat]
  simp [hpend, List.dropLast_concat, commitLine]

theorem commitLast_committed (acc : LogAccumulated) (now : Nat) (X : List LogLine) (l : LogLine)
    (hsh : acc.lines = X ++ [l]) (hcom : l.main.timestamp.isSome = true) :
    commitLast acc now = (acc, now) := by
  unfold commitLast
  rw [hsh, List.getLast?_concat]
  have hn : l.main.timestamp.isNone = false := by
    cases hts : l.main.timestamp with
    | none => rw [hts] at hcom; cases hcom
    | some t => simp
  simp [hn]

theorem pushContent_concat (acc : LogAccumulated) (X : List LogLine) (l : LogLine)
    (tok : LogContentItem) (hsh : acc.lines = X ++ [l]) :
    pushContent acc tok = { acc with lines := X ++ [appendToks l [tok]] } := by
  unfold pushContent
  rw [hsh, List.getLast?_concat]
  simp [List.dropLast_concat, appendToks]

theorem appendToks_appendToks (l : LogLine) (a b : List LogContentItem) :
    appendToks (appendToks l a) b = appendToks l (a ++ b) := by
  simp [appendToks, List.append_assoc]

theorem applyLogAction_newline (emk : Bool) (sty : StyContext) (acc : LogAccumulated)
    (now : Nat) :
    ∃ acc2, applyLogAction emk (AnsiAction.controll '\n') (sty, acc, now) =
        (sty, acc2, (commitLast (ensureLine emk acc) now).2) ∧
      acc2.lines = (commitLast (ensureLine emk acc) now).1.lines ++
        [pendingLine (Int.ofNat (commitLast (ensureLine emk acc) now).1.lineCount)
          [LogContentItem.style (restoreSty sty)]] :=
  ⟨_, rfl, rfl⟩

theorem applyLogAction_style (emk : Bool) (sty : StyContext) (acc : LogAccumulated)
    (now : Nat) (bs : List Nat) (X : List LogLine) (l : LogLine)
    (hsh : acc.lines = X ++ [l]) :
    ∃ acc2, applyLogAction emk (AnsiAction.style bs) (sty, acc, now) =
        (sty ++ [bs], acc2, now) ∧
      acc2.lines = X ++
        [appendToks l [LogContentItem.style (restoreSty (sty ++ [bs]))]] := by
  have hens : ensureLine emk acc = acc := ensureLine_of_ne emk acc (by rw [hsh]; simp)
  have hpc := pushContent_concat acc X l
    (LogContentItem.style (restoreSty (sty ++ [bs]))) hsh
  refine ⟨pushContent acc (LogContentItem.style (restoreSty (sty ++ [bs]))), ?_, ?_⟩
  · show (sty ++ [bs],
        pushContent (ensureLine emk acc) (LogContentItem.style (restoreSty (sty ++ [bs]))),
        now) = (sty ++ [bs],
        pushContent acc (LogContentItem.style (restoreSty (sty ++ [bs]))), now)
    rw [hens]
  · rw [hpc]

theorem applyLogAction_print_pending (emk : Bool) (sty : StyContext) (acc : LogAccumulated)
    (now : Nat) (b : Nat) (X : List LogLine) (l : LogLine)
    (hsh : acc.lines = X ++ [l]) (hpend : l.main.timestamp = Option.none) :
    ∃ acc2, applyLogAction emk (AnsiAction.print b) (sty, acc, now) = (sty, acc2, now + 1) ∧
      acc2.lines = X ++ [appendToks (commitLine l now) [LogContentItem.print b]] := by
  have hens : ensureLine emk acc = acc := ensureLine_of_ne emk acc (by rw [hsh]; simp)
  have hcl := commitLast_pending acc now X l hsh hpend
  have hpc := pushContent_concat
    { acc with lines := X ++ [commitLine l now], lineCount := acc.lineCount + 1 }
    X (commitLine l now) (LogContentItem.print b) rfl
  refine ⟨pushContent
    { acc with lines := X ++ [commitLine l now], lineCount := acc.lineCount + 1 }
    (LogContentItem.print b), ?_, ?_⟩
  · show (sty, pushContent (commitLast (ensureLine emk acc) now).1 (LogContentItem.print b),
        (commitLast (ensureLine emk acc) now).2) = _
    rw [hens, hcl]
  · rw [hpc]

theorem applyLogAction_print_committed (emk : Bool) (sty : StyContext) (acc : LogAccumulated)
    (now : Nat) (b : Nat) (X : List LogLine) (l : LogLine)
    (hsh : acc.lines = X ++ [l]) (hcom : l.main.timestamp.isSome = true) :
    ∃ acc2, applyLogAction emk (AnsiAction.print b) (sty, acc, now) = (sty, acc2, now) ∧
      acc2.lines = X ++ [appendToks l [LogContentItem.print b]] := by
  have hens : ensureLine emk acc = acc := ensureLine_of_ne emk acc (by rw [hsh]; simp)
  have hcl := commitLast_committed acc now X l hsh hcom
  have hpc := pushContent_concat acc X l (LogContentItem.print b) hsh
  refine ⟨pushContent acc (LogContentItem.print b), ?_, ?_⟩
  · show (sty, pushContent (commitLast (ensureLine emk acc) now).1 (LogContentItem.print b),
        (commitLast (ensureLine emk acc) now).2) = _
    rw [hens, hcl]
  · rw [hpc]

theorem run_prints (emk : Bool) : ∀ (bs : List Nat) (sty : StyContext) (acc : LogAccumulated)
    (now : Nat) (X : List LogLine) (l : LogLine),
    acc.lines = X ++ [l] → l.main.timestamp.isSome = true →
    ∃ acc2 now2,
      (bs.map AnsiAction.print).foldl (fun st act => applyLogAction emk act st)
          (sty, acc, now) = (sty, acc2, now2) ∧
        acc2.lines = X ++ [appendToks l (bs.map LogContentItem.print)] := by
  intro bs
  induction bs with
  | nil =>
    intro sty acc now X l hsh _
    refine ⟨acc, now, rfl, ?_⟩
    rw [hsh]
    simp [appendToks]
  | cons b bs ih =>
    intro sty acc now X l hsh hcom
    rw [List.map_cons, List.foldl_cons]
    obtain ⟨acc1, hstep, hlines1⟩ :=
      applyLogAction_print_committed emk sty acc now b X l hsh hcom
    rw [hstep]
    obtain ⟨acc2, now2, hrun, hlines2⟩ := ih sty acc1 now X
      (appendToks l [LogContentItem.print b]) hlines1 hcom
    refine ⟨acc2, now2, hrun, ?_⟩
    rw [hlines2, appendToks_appendToks]
    rfl

theorem printableContent_append (a b : List LogContentItem) :
    printableContent (a ++ b) = printableContent a ++ printableContent b := by
  induction a with
  | nil => rfl
  | cons x r ih => cases x <;> simp [printableContent, ih]

theorem printableContent_map_print (bs : List Nat) :
    printableContent (bs.map LogContentItem.print) = bs := by
  induction bs with
  | nil => rfl
  | cons b r ih => simp [printableContent, ih]

/-- The log chunk appended by `killNode`, decoded and applied to a sink whose
decoder is at a chunk boundary, always commits a line whose printable content
is exactly `[NOTIOS] MANUALLY KILLED`, followed by the fresh pending line. -/
theorem appendLog_killed_shape (emk cst : Bool) (now : Nat) (own : LogOwnState)
    (acc : LogAccumulated) (hpar : own.currentParser = []) :
    ∃ pre marker pend,
      (appendLogToNode emk now (killedBytes cst) own acc).2.lines = pre ++ [marker, pend] ∧
        marker.main.timestamp.isSome = true ∧
        printableContent marker.main.content = asciiBytes "[NOTIOS] MANUALLY KILLED" := by
  have hproj : (appendLogToNode emk now (killedBytes cst) own acc).2 =
      ((decodeAnsiBytes own.currentParser (killedBytes cst)).2.foldl
        (fun st act => applyLogAction emk act st) (own.currentSty, acc, now)).2.1 := rfl
  rw [hproj, hpar]
  cases cst
  · have hdec : (decodeAnsiBytes [] (killedBytes false)).2 =
        AnsiAction.controll '\n' :: AnsiAction.print 91 ::
          ((asciiBytes "NOTIOS] MANUALLY KILLED").map AnsiAction.print ++
            [AnsiAction.controll '\n']) := by decide
    rw [hdec, List.foldl_cons]
    obtain ⟨a1, hs1, hl1⟩ := applyLogAction_newline emk own.currentSty acc now
    rw [hs1, List.foldl_cons]
    obtain ⟨a2, hs2, hl2⟩ := applyLogAction_print_pending emk own.currentSty a1 _ 91 _ _ hl1 rfl
    rw [hs2, List.foldl_append]
    obtain ⟨a3, n3, hs3, hl3⟩ := run_prints emk (asciiBytes "NOTIOS] MANUALLY KILLED")
      own.currentSty a2 _ _ _ hl2 rfl
    rw [hs3, List.foldl_cons, List.foldl_nil]
    obtain ⟨a4, hs4, hl4⟩ := applyLogAction_newline emk own.currentSty a3 n3
    rw [hs4]
    have hcl := commitLast_committed a3 n3 _ _ hl3 rfl
    rw [ensureLine_of_ne emk a3 (by rw [hl3]; simp), hcl] at hl4
    obtain ⟨M, hM, hMts, hMpc⟩ : ∃ M,
        a3.lines = (commitLast (ensureLine emk acc) now).1.lines ++ [M] ∧
          M.main.timestamp.isSome = true ∧
          printableContent M.main.content = asciiBytes "[NOTIOS] MANUALLY KILLED" := by
      refine ⟨_, hl3, ?_, ?_⟩
      · rfl
      · simp only [appendToks, commitLine, pendingLine, printableContent_append,
          printableContent_map_print, printableContent]
        decide
    obtain ⟨P, hP⟩ : ∃ P, a4.lines = a3.lines ++ [P] := ⟨_, hl4⟩
    refine ⟨(commitLast (ensureLine emk acc) now).1.lines, M, P, ?_, hMts, hMpc⟩
    rw [hP, hM, List.append_assoc]
    rfl
  · have hdec : (decodeAnsiBytes [] (killedBytes true)).2 =
        AnsiAction.controll '\n' :: AnsiAction.style [27, 91, 48, 109] ::
          AnsiAction.style [27, 91, 51, 51, 109] :: AnsiAction.print 91 ::
            ((asciiBytes "NOTIOS] MANUALLY KILLED").map AnsiAction.print ++
              [AnsiAction.style [27, 91, 48, 109], AnsiAction.controll '\n']) := by decide
    rw [hdec, List.foldl_cons]
    obtain ⟨a1, hs1, hl1⟩ := applyLogAction_newline emk own.currentSty acc now
    rw [hs1, List.foldl_cons]
    obtain ⟨a2, hs2, hl2⟩ := applyLogAction_style emk own.currentSty a1 _ [27, 91, 48, 109]
      _ _ hl1
    rw [hs2, List.foldl_cons]
    obtain ⟨a3, hs3, hl3⟩ := applyLogAction_style emk (own.currentSty ++ [[27, 91, 48, 109]])
      a2 ((commitLast (ensureLine emk acc) now).2) [27, 91, 51, 51, 109] _ _ hl2
    rw [hs3, List.foldl_cons]
    obtain ⟨a4, hs4, hl4⟩ := applyLogAction_print_pending emk
      (own.currentSty ++ [[27, 91, 48, 109]] ++ [[27, 91, 51, 51, 109]]) a3
      ((commitLast (ensureLine emk acc) now).2) 91 _ _ hl3 rfl
    rw [hs4, List.foldl_append]
    obtain ⟨a5, n5, hs5, hl5⟩ := run_prints emk (asciiBytes "NOTIOS] MANUALLY KILLED")
      (own.currentSty ++ [[27, 91, 48, 109]] ++ [[27, 91, 51, 51, 109]]) a4
      ((commitLast (ensureLine emk acc) now).2 + 1) _ _ hl4 rfl
    rw [hs5, List.foldl_cons]
    obtain ⟨a6, hs6, hl6⟩ := applyLogAction_style emk
      (own.currentSty ++ [[27, 91, 48, 109]] ++ [[27, 91, 51, 51, 109]]) a5 n5
      [27, 91, 48, 109] _ _ hl5
    rw [hs6, List.foldl_cons, List.foldl_nil]
    obtain ⟨a7, hs7, hl7⟩ := applyLogAction_newline emk
      (own.currentSty ++ [[27, 91, 48, 109]] ++ [[27, 91, 51, 51, 109]] ++ [[27, 91, 48, 109]])
      a6 n5
    rw [hs7]
    have hcl := commitLast_committed a6 n5 _ _ hl6 rfl
    rw [ensureLine_of_ne emk a6 (by rw [hl6]; simp), hcl] at hl7
    obtain ⟨M, hM, hMts, hMpc⟩ : ∃ M,
        a6.lines = (commitLast (ensureLine emk acc) now).1.lines ++ [M] ∧
          M.main.timestamp.isSome = true ∧
          printableContent M.main.content = asciiBytes "[NOTIOS] MANUALLY KILLED" := by
      refine ⟨_, hl6, ?_, ?_⟩
      · rfl
      · simp only [appendToks, commitLine, pendingLine, printableContent_append,
          printableContent_map_print, printableContent]
        decide
    obtain ⟨P, hP⟩ : ∃ P, a7.lines = a6.lines ++ [P] := ⟨_, hl7⟩
    refine ⟨(commitLast (ensureLine emk acc) now).1.lines, M, P, ?_, hMts, hMpc⟩
    rw [hP, hM, List.append_assoc]
    rfl

theorem setChildAt_pair0 (a b : SinkChild) (f : SinkChild → SinkChild) :
    setChildAt [a, b] 0 f = [f a, b] := rfl

theorem setChildAt_pair1 (a b : SinkChild) (f : SinkChild → SinkChild) :
    setChildAt [a, b] 1 f = [a, f b] := rfl

/-- A notify pass at a node with process-identity whose two children are both
killed and non-ignored makes the node killed and leaves the children as they
were. -/
theorem notifyUpdate_killed_pair (emk cst : Bool) (H C : Int) (m : NodeState)
    (a b : SinkChild) (hpo : m.hasProcOwn = true)
    (hsa : a.status = ProcStatus.killed) (hsb : b.status = ProcStatus.killed)
    (hia : a.ignored = false) (hib : b.ignored = false)
    (hch : m.children = [a, b]) :
    (notifyUpdateNode emk cst H C m).status = ProcStatus.killed ∧
      (notifyUpdateNode emk cst H C m).children = [a, b] := by
  have hni : nonIgnored m.children = [a, b] := by
    rw [hch]
    simp [nonIgnored, hia, hib]
  have hmap : (nonIgnored m.children).map (·.status) =
      [ProcStatus.killed, ProcStatus.killed] := by
    rw [hni]
    simp [hsa, hsb]
  have hrs : recomputeStatus m.hasProcOwn ((nonIgnored m.children).map (·.status)) =
      ProcStatus.killed := by
    rw [hmap, hpo]
    decide
  constructor
  · rw [notifyUpdateNode_status, if_pos (by rw [hni]; simp), hrs]
  · rw [notifyUpdateNode_children, if_pos (by rw [hni]; simp), hrs,
      checkSerialChildren_not_running ProcStatus.killed m.ty m.children (by decide), hch]

/-- The effective branch of `killNode` on a node with the two sinks. -/
theorem killNode_run (emk cst : Bool) (H C : Int) (now : Nat) (n : NodeState)
    (s0 s1 : SinkChild) (hch : n.children = [s0, s1])
    (h1 : n.hasProcOwn = true) (h2 : n.hasRaw = true)
    (h3 : n.status = ProcStatus.running) :
    killNode emk cst H C now (some n) =
      some (notifyUpdateNode emk cst H C
        { n with
          hasRaw := false
          status := ProcStatus.killed
          children := [killOutSink emk cst now s0, { s1 with status := ProcStatus.killed }] }) := by
  simp only [killNode]
  rw [if_neg (by simp [h1]), if_neg (by simp [h2]), if_neg (by simp [h3])]
  simp only [hch, setChildAt_pair0, setChildAt_pair1, killOutSink]

/-- The first half of the exit callback on a node with the two sinks. -/
theorem exitSinks_pair (code : JSExit) (n : NodeState) (a b : SinkChild)
    (hch : n.children = [a, b]) :
    exitSinks code n =
      { n with children := [{ a with status := exitPromote a.status, exitCode := code },
          { b with status := exitPromote b.status, exitCode := code }] } := by
  simp only [exitSinks, hch, setChildAt_pair0, setChildAt_pair1]

/-- C8.  `killNode` is a silent no-op on a missing node and on any node that
lacks process-identity, lacks a live process handle, or is not `running`; on
a started running leaf (process-identity, a live handle, status `running`,
the two sinks at indices 0 and 1, the stdout decoder at a chunk boundary) it
sets the node's status and both sinks' statuses to `killed` and appends to
the stdout sink a committed line whose printable content is exactly
`[NOTIOS] MANUALLY KILLED`. -/
theorem claim_C8_killNode (emk cst : Bool) (H C : Int) (now : Nat) (n : NodeState)
    (s0 s1 : SinkChild) (hch : n.children = [s0, s1])
    (hig0 : s0.ignored = false) (hig1 : s1.ignored = false)
    (hpar : s0.logOwn.currentParser = []) :
    killNode emk cst H C now Option.none = Option.none ∧
      (n.hasProcOwn = false → killNode emk cst H C now (some n) = some n) ∧
      (n.hasRaw = false → killNode emk cst H C now (some n) = some n) ∧
      (n.status ≠ ProcStatus.running → killNode emk cst H C now (some n) = some n) ∧
      (n.hasProcOwn = true → n.hasRaw = true → n.status = ProcStatus.running →
        ∃ n2 c0 c1,
          killNode emk cst H C now (some n) = some n2 ∧
            n2.status = ProcStatus.killed ∧
            n2.children = [c0, c1] ∧
            c0.status = ProcStatus.killed ∧ c1.status = ProcStatus.killed ∧
            ∃ pre marker pend,
              c0.logAccumulated.lines = pre ++ [marker, pend] ∧
                marker.main.timestamp.isSome = true ∧
                printableContent marker.main.content =
                  asciiBytes "[NOTIOS] MANUALLY KILLED") := by
  refine ⟨rfl, ?_, ?_, ?_, ?_⟩
  · intro h
    simp only [killNode]
    rw [if_pos h]
  · intro h
    simp only [killNode]
    by_cases h1 : n.hasProcOwn = false
    · rw [if_pos h1]
    · rw [if_neg h1, if_pos h]
  · intro h
    simp only [killNode]
    by_cases h1 : n.hasProcOwn = false
    · rw [if_pos h1]
    · by_cases h2 : n.hasRaw = false
      · rw [if_neg h1, if_pos h2]
      · rw [if_neg h1, if_neg h2, if_pos h]
  · intro h1 h2 h3
    rw [killNode_run emk cst H C now n s0 s1 hch h1 h2 h3]
    have hk := notifyUpdate_killed_pair emk cst H C
      { n with
        hasRaw := false
        status := ProcStatus.killed
        children := [killOutSink emk cst now s0, { s1 with status := ProcStatus.killed }] }
      (killOutSink emk cst now s0) { s1 with status := ProcStatus.killed }
      h1 rfl rfl hig0 hig1 rfl
    refine ⟨_, _, _, rfl, hk.1, hk.2, rfl, rfl, ?_⟩
    exact appendLog_killed_shape emk cst now s0.logOwn s0.logAccumulated hpar

theorem claim_C8_killNode_witness :
    runningLeaf.children = [mkChild "<out>" ProcStatus.running false JSExit.undef,
        mkChild "<err>" ProcStatus.running false JSExit.undef] ∧
      ∃ n2 c0 c1,
        killNode false false 0 0 0 (some runningLeaf) = some n2 ∧
          n2.status = ProcStatus.killed ∧
          n2.children = [c0, c1] ∧
          c0.status = ProcStatus.killed ∧ c1.status = ProcStatus.killed ∧
          ∃ pre marker pend,
            c0.logAccumulated.lines = pre ++ [marker, pend] ∧
              marker.main.timestamp.isSome = true ∧
              printableContent marker.main.content =
                asciiBytes "[NOTIOS] MANUALLY KILLED" :=
  ⟨rfl, (claim_C8_killNode false false 0 0 0 runningLeaf
      (mkChild "<out>" ProcStatus.running false JSExit.undef)
      (mkChild "<err>" ProcStatus.running false JSExit.undef)
      rfl rfl rfl rfl).2.2.2.2 rfl rfl rfl⟩

/-- C9.  Once `killNode` has set a started leaf and both its sinks to
`killed`, a later process-exit callback cannot regress any of them: the
callback's status promotion moves a sink only from `running` (to `finished`)
and leaves every other status alone, and the full callback — promotion,
exit-code recording and the notify passes — leaves the node and both sinks
`killed`. -/
theorem claim_C9_exit_no_regress (emk cst : Bool) (H C : Int) (code : JSExit)
    (n : NodeState) (s0 s1 : SinkChild) (hch : n.children = [s0, s1])
    (hig0 : s0.ignored = false) (hig1 : s1.ignored = false)
    (hpo : n.hasProcOwn = true) (_hst : n.status = ProcStatus.killed)
    (hs0 : s0.status = ProcStatus.killed) (hs1 : s1.status = ProcStatus.killed) :
    (∀ s, exitPromote s ≠ s →
        s = ProcStatus.running ∧ exitPromote s = ProcStatus.finished) ∧
      (exitCallback emk cst H C code n).status = ProcStatus.killed ∧
      ∃ c0 c1,
        (exitCallback emk cst H C code n).children = [c0, c1] ∧
          c0.status = ProcStatus.killed ∧ c1.status = ProcStatus.killed := by
  have hPA : ({ s0 with status := exitPromote s0.status, exitCode := code } :
      SinkChild).status = ProcStatus.killed := by
    show exitPromote s0.status = ProcStatus.killed
    rw [hs0]
    decide
  have hPB : ({ s1 with status := exitPromote s1.status, exitCode := code } :
      SinkChild).status = ProcStatus.killed := by
    show exitPromote s1.status = ProcStatus.killed
    rw [hs1]
    decide
  have hsk := exitSinks_pair code n s0 s1 hch
  have hch4 : (exitSinks code n).children =
      [{ s0 with status := exitPromote s0.status, exitCode := code },
        { s1 with status := exitPromote s1.status, exitCode := code }] := by
    rw [hsk]
  have hpo4 : (exitSinks code n).hasProcOwn = true := by
    rw [hsk]
    exact hpo
  have h45 := notifyUpdate_killed_pair emk cst H C (exitSinks code n)
    { s0 with status := exitPromote s0.status, exitCode := code }
    { s1 with status := exitPromote s1.status, exitCode := code }
    hpo4 hPA hPB hig0 hig1 hch4
  have hpo5 : (notifyUpdateNode emk cst H C (exitSinks code n)).hasProcOwn = true :=
    (notifyUpdateNode_hasProcOwn emk cst H C (exitSinks code n)).1.trans hpo4
  have hch6 :
      ({ notifyUpdateNode emk cst H C (exitSinks code n) with
          children := setChildAt (notifyUpdateNode emk cst H C (exitSinks code n)).children 0
            (wipeChild emk cst H C) } : NodeState).children =
        [wipeChild emk cst H C { s0 with status := exitPromote s0.status, exitCode := code },
          { s1 with status := exitPromote s1.status, exitCode := code }] := by
    show setChildAt (notifyUpdateNode emk cst H C (exitSinks code n)).children 0
        (wipeChild emk cst H C) =
      [wipeChild emk cst H C { s0 with status := exitPromote s0.status, exitCode := code },
        { s1 with status := exitPromote s1.status, exitCode := code }]
    rw [h45.2, setChildAt_pair0]
  have h67 := notifyUpdate_killed_pair emk cst H C
    { notifyUpdateNode emk cst H C (exitSinks code n) with
      children := setChildAt (notifyUpdateNode emk cst H C (exitSinks code n)).children 0
        (wipeChild emk cst H C) }
    (wipeChild emk cst H C { s0 with status := exitPromote s0.status, exitCode := code })
    { s1 with status := exitPromote s1.status, exitCode := code }
    hpo5 hPA hPB hig0 hig1 hch6
  refine ⟨?_, ?_, ?_⟩
  · intro s hne
    cases s
    case running => exact ⟨rfl, rfl⟩
    all_goals exact absurd rfl hne
  · exact h67.1
  · refine ⟨wipeChild emk cst H C
        { s0 with status := exitPromote s0.status, exitCode := code },
      wipeChild emk cst H C
        { s1 with status := exitPromote s1.status, exitCode := code }, ?_, hPA, hPB⟩
    have hfin : (exitCallback emk cst H C code n).children =
        setChildAt (notifyUpdateNode emk cst H C
          { notifyUpdateNode emk cst H C (exitSinks code n) with
            children := setChildAt (notifyUpdateNode emk cst H C
              (exitSinks code n)).children 0 (wipeChild emk cst H C) }).children 1
          (wipeChild emk cst H C) := by
      simp only [exitCallback]
    rw [hfin, h67.2, setChildAt_pair1]

theorem claim_C9_exit_no_regress_witness :
    killedLeaf.status = ProcStatus.killed ∧
      (exitCallback false false 0 0 (JSExit.num 0) killedLeaf).status = ProcStatus.killed ∧
      ∃ c0 c1,
        (exitCallback false false 0 0 (JSExit.num 0) killedLeaf).children = [c0, c1] ∧
          c0.status = ProcStatus.killed ∧ c1.status = ProcStatus.killed :=
  ⟨rfl, (claim_C9_exit_no_regress false false 0 0 (JSExit.num 0) killedLeaf
      (mkChild "<out>" ProcStatus.killed false JSExit.undef)
      (mkChild "<err>" ProcStatus.killed false JSExit.undef)
      rfl rfl rfl rfl rfl rfl rfl).2⟩

end NpmScriptsUi
